import Mathlib

/-!
# Verification of the tlm_adjoint caching / dependency-invalidation subsystem

Shallow embedding of `python/tlm_adjoint/caches.py`: the `CacheRef` value
cells, the per-field `FunctionCaches` dependency trackers, the central
`Cache` keyed store with its reverse dependency index, the
`AssemblyCache.assemble` specialization, the `split_action` form splitter
and the `ReplacementFunction` placeholder.

Modelling conventions:
* Python dicts become insertion-ordered association lists (`Dict` below):
  assignment updates in place or appends, deletion removes the (unique) key,
  iteration follows list order — exactly the observable behaviour of a
  Python `dict` whose key list is duplicate-free.
* Mutable shared `CacheRef` cells become identifiers (`RefId`) into a world
  level ref store, so that clearing a cell is visible to every holder.
* Weak references are modelled as always live while their target is present
  in the world; nothing in the model is garbage collected, matching a run
  in which all objects stay alive.
* Python exceptions become `Except PyErr`; an erroring operation yields only
  the error (the partially mutated state at the raise point is not
  observable in the model, and no claim depends on it).
-/

namespace TlmAdjoint

/-- Python exceptions raised by the caching subsystem. -/
inductive PyErr where
  | cacheException : String → PyErr
  | keyError : PyErr
  | assertionError : PyErr
deriving DecidableEq, Repr

/-! ## Insertion-ordered dictionaries (model of Python `dict`) -/

/-- A Python `dict` modelled as an insertion-ordered association list with
(at most) unique keys. -/
abbrev Dict (α β : Type) := List (α × β)

namespace Dict

variable {α β : Type} [DecidableEq α]

/-- `d[k]` / `d.get(k)`: first binding of `k`. -/
def fetch : Dict α β → α → Option β
  | [], _ => none
  | p :: rest, k => if p.1 = k then some p.2 else fetch rest k

/-- `k in d`. -/
def hasKey (d : Dict α β) (k : α) : Bool := (fetch d k).isSome

/-- `d[k] = v`: update in place if present, else append (Python dict
assignment preserves insertion order). -/
def store : Dict α β → α → β → Dict α β
  | [], k, v => [(k, v)]
  | p :: rest, k, v =>
    if p.1 = k then (k, v) :: rest else p :: store rest k v

/-- `del d[k]` (callers check presence separately): remove the binding. -/
def remove : Dict α β → α → Dict α β
  | [], _ => []
  | p :: rest, k => if p.1 = k then rest else p :: remove rest k

/-- The keys of `d`, in insertion order. -/
def keys (d : Dict α β) : List α := d.map Prod.fst

/-- Key list is duplicate-free: the representation invariant of a Python
`dict`. -/
def NodupKeys (d : Dict α β) : Prop := (keys d).Nodup

instance (d : Dict α β) : Decidable (NodupKeys d) := by
  unfold NodupKeys; infer_instance

end Dict

/-! ## Fields, trackers, caches, worlds -/

/-- The observable interface of a mutable field (`Function`/`Constant`):
a process-unique identity `id`, the mutation-state counter `state`
(an `Int` so that the `ReplacementFunction` sentinel `-1` is expressible),
whether the object is a `backend_Function` (`isFunction`, tested by
`is_function` when collecting form dependencies), and the duck-typed
attributes probed by `function_is_static` / `function_is_cached` /
`function_is_checkpointed` / `function_tlm_depth` (an absent attribute is
modelled by the documented default). -/
structure Fn where
  id : Nat
  name : String
  state : Int
  isFunction : Bool
  static : Bool
  cached : Bool
  checkpointed : Bool
  tlmDepth : Nat
deriving DecidableEq, Repr

/-- `function_is_static(x)`. -/
def function_is_static (x : Fn) : Bool := x.static

/-- `function_is_cached(x)`. -/
def function_is_cached (x : Fn) : Bool := x.cached

/-- `function_is_checkpointed(x)`. -/
def function_is_checkpointed (x : Fn) : Bool := x.checkpointed

/-- `function_tlm_depth(x)`. -/
def function_tlm_depth (x : Fn) : Nat := x.tlmDepth

/-- `function_state(x)`. -/
def function_state (x : Fn) : Int := x.state

/-- A `FunctionCaches` object (the per-field dependency tracker):
`caches` is the key list of the weak-value dict `_caches` (cache ids, in
insertion order; all caches in the model stay alive), `snapshot` is
`_state`, the `(field id, field state)` pair observed last.  The `_id`
field of the Python object is the key under which the tracker is stored in
the world. -/
structure TrackerState where
  caches : List Nat
  snapshot : Nat × Int
deriving DecidableEq, Repr

/-- The private state of one `Cache` object:
`cache` is `_cache : key → CacheRef` (the ref cell named by its `RefId`),
`depsMap` is `_deps_map : dep id → {key → tuple of all dep ids of key}`,
`depCaches` is the key list of `_dep_caches : dep id → weakref to the
dep's FunctionCaches` (the weakref target is recovered from the dep id,
which is how the Python object graph links them). -/
structure CacheState (K : Type) where
  cache : Dict K Nat
  depsMap : Dict Nat (Dict K (List Nat))
  depCaches : List Nat
deriving DecidableEq, Repr

/-- A fresh `Cache()`: empty primary map, empty reverse index. -/
def CacheState.empty (K : Type) : CacheState K := ⟨[], [], []⟩

/-- The whole mutable object graph: all `Cache` objects (by cache id), all
`FunctionCaches` trackers (by field id), the store of `CacheRef` cells (a
cell holds `some v` when live and `none` once `_clear()` has run), and the
allocator for fresh cell ids. -/
structure World (K V : Type) where
  caches : Dict Nat (CacheState K)
  trackers : Dict Nat TrackerState
  refs : Dict Nat (Option V)
  nextRef : Nat
deriving DecidableEq, Repr

/-- The empty world: no caches, no trackers, no cells. -/
def World.empty (K V : Type) : World K V := ⟨[], [], [], 0⟩

/-- Reading a `CacheRef` cell in a ref store: `none` is the empty sentinel
(a cleared or never-created cell). -/
def cellRead {V : Type} (refs : Dict Nat (Option V)) (rid : Nat) : Option V :=
  match Dict.fetch refs rid with
  | some cell => cell
  | none => none

/-- `CacheRef.__call__`: reading a cell through any holder of the handle. -/
def refRead {K V : Type} (w : World K V) (rid : Nat) : Option V :=
  cellRead w.refs rid

/-- `Cache.get(key, None)`: the `CacheRef` handle stored under `key`,
`none` when absent.  A pure read. -/
def Cache.get {K V : Type} [DecidableEq K] (w : World K V) (cid : Nat)
    (key : K) : Option Nat :=
  match Dict.fetch w.caches cid with
  | some cs => Dict.fetch cs.cache key
  | none => none

/-- Working state threaded through the loops of `Cache.add` and
`Cache.clear`: the cache's own `CacheState` plus the shared trackers and
ref cells those loops mutate. -/
structure CST (K V : Type) where
  cs : CacheState K
  trackers : Dict Nat TrackerState
  refs : Dict Nat (Option V)
deriving DecidableEq, Repr

/-- A Python `for` loop whose body may raise, threading an accumulator:
the loop stops at the first raised exception. -/
def foldE {σ α ε : Type} (f : σ → α → Except ε σ) : σ → List α → Except ε σ
  | s, [] => Except.ok s
  | s, a :: l =>
    match f s a with
    | Except.error e => Except.error e
    | Except.ok s2 => foldE f s2 l

/-- `FunctionCaches.remove(cache)` on the tracker stored under `depId`,
called through a live weakref: `del self._caches[cache.id()]`, a `KeyError`
if the cache is not registered.  A dead weakref (`depId` absent from the
world) is skipped by the caller, which models
`if dep_caches is not None: dep_caches.remove(self)`. -/
def trackerDeregister (trackers : Dict Nat TrackerState) (depId cid : Nat) :
    Except PyErr (Dict Nat TrackerState) :=
  match Dict.fetch trackers depId with
  | none => Except.ok trackers
  | some tr =>
    if cid ∈ tr.caches then
      Except.ok
        (Dict.store trackers depId { tr with caches := tr.caches.erase cid })
    else
      Except.error PyErr.keyError

/-- One step of the inner loop of selective `Cache.clear`, for a single
`dep_id2` drawn from the dependency-id tuple of the key being removed:

    if dep_id2 != dep_id:
        del(self._deps_map[dep_id2][key])
        if len(self._deps_map[dep_id2]) == 0:
            del(self._deps_map[dep_id2])
            dep_caches = self._dep_caches[dep_id2]()
            if dep_caches is not None:
                dep_caches.remove(self)
            del(self._dep_caches[dep_id2]) -/
def clearDepInner {K V : Type} [DecidableEq K] (cid depId : Nat) (key : K)
    (st : CST K V) (d2 : Nat) : Except PyErr (CST K V) :=
  if d2 = depId then Except.ok st
  else
    match Dict.fetch st.cs.depsMap d2 with
    | none => Except.error PyErr.keyError
    | some inner =>
      match Dict.fetch inner key with
      | none => Except.error PyErr.keyError
      | some _ =>
        match Dict.remove inner key with
        | [] =>
          if d2 ∈ st.cs.depCaches then
            match trackerDeregister st.trackers d2 cid with
            | Except.error e => Except.error e
            | Except.ok trackers2 =>
              Except.ok { st with
                cs := { st.cs with
                  depsMap := Dict.remove st.cs.depsMap d2,
                  depCaches := st.cs.depCaches.erase d2 },
                trackers := trackers2 }
          else Except.error PyErr.keyError
        | _ =>
          Except.ok { st with
            cs := { st.cs with
              depsMap := Dict.store st.cs.depsMap d2 (Dict.remove inner key) } }

/-- One step of the outer loop of selective `Cache.clear`, for a single
`(key, dep_ids)` item recorded under the cleared dependency:

    self._cache[key]._clear()
    del(self._cache[key])
    for dep_id2 in dep_ids: ... (inner loop above) -/
def clearDepItem {K V : Type} [DecidableEq K] (cid depId : Nat)
    (st : CST K V) (item : K × List Nat) : Except PyErr (CST K V) :=
  match Dict.fetch st.cs.cache item.1 with
  | none => Except.error PyErr.keyError
  | some rid =>
    let st1 : CST K V := { st with
      refs := Dict.store st.refs rid none,
      cs := { st.cs with cache := Dict.remove st.cs.cache item.1 } }
    foldE (clearDepInner cid depId item.1) st1 item.2

/-- Selective `Cache.clear` for one dependency id (`dep_id` below): the body
of `for dep in deps: ...` in `Cache.clear(*deps)`.

    if dep_id in self._deps_map:
        for key, dep_ids in self._deps_map[dep_id].items(): ... (item loop)
        del(self._deps_map[dep_id])
        dep_caches = self._dep_caches[dep_id]()
        if dep_caches is not None:
            dep_caches.remove(self)
        del(self._dep_caches[dep_id]) -/
def clearDep {K V : Type} [DecidableEq K] (w : World K V) (cid depId : Nat) :
    Except PyErr (World K V) :=
  match Dict.fetch w.caches cid with
  | none => Except.error PyErr.keyError
  | some cs =>
    match Dict.fetch cs.depsMap depId with
    | none => Except.ok w
    | some items =>
      match foldE (clearDepItem cid depId)
        (CST.mk cs w.trackers w.refs : CST K V) items with
      | Except.error e => Except.error e
      | Except.ok st =>
        match Dict.fetch st.cs.depsMap depId with
        | none => Except.error PyErr.keyError
        | some _ =>
          if depId ∈ st.cs.depCaches then
            match trackerDeregister st.trackers depId cid with
            | Except.error e => Except.error e
            | Except.ok trackers2 =>
              Except.ok { w with
                caches := Dict.store w.caches cid { st.cs with
                  depsMap := Dict.remove st.cs.depsMap depId,
                  depCaches := st.cs.depCaches.erase depId },
                trackers := trackers2,
                refs := st.refs }
          else Except.error PyErr.keyError

/-- `Cache.clear()` with no arguments: clear every cell, empty both maps,
and deregister from every tracked dependency's `FunctionCaches`. -/
def clearAll {K V : Type} [DecidableEq K] (w : World K V) (cid : Nat) :
    Except PyErr (World K V) :=
  match Dict.fetch w.caches cid with
  | none => Except.error PyErr.keyError
  | some cs =>
    let refs2 := cs.cache.foldl (fun refs kv => Dict.store refs kv.2 none) w.refs
    match foldE (fun trackers d => trackerDeregister trackers d cid)
      w.trackers cs.depCaches with
    | Except.error e => Except.error e
    | Except.ok trackers2 =>
      Except.ok { w with
        caches := Dict.store w.caches cid (CacheState.empty K),
        trackers := trackers2,
        refs := refs2 }

/-- `Cache.clear(*deps)`: full clear when no dependency is named, otherwise
the selective clear applied to each named dependency id in turn (the caller
passes `dep.id()` for non-int arguments, so ids suffice here). -/
def Cache.clear {K V : Type} [DecidableEq K] (w : World K V) (cid : Nat)
    (deps : List Nat) : Except PyErr (World K V) :=
  match deps with
  | [] => clearAll w cid
  | _ => foldE (fun w d => clearDep w cid d) w deps


/-- `function_caches(dep)` when the tracker may not exist yet: get-or-create
the `FunctionCaches` keyed by the field's id.  A fresh tracker starts with
an empty cache set and the snapshot `(x.id(), function_state(x))` taken at
construction time. -/
def ensureTracker (trackers : Dict Nat TrackerState) (dep : Fn) :
    Dict Nat TrackerState :=
  match Dict.fetch trackers dep.id with
  | some _ => trackers
  | none => Dict.store trackers dep.id (TrackerState.mk [] (dep.id, dep.state))

/-- `FunctionCaches.add(cache)`: register the cache id in the weak-value
dict if not already present (idempotent by cache identity). -/
def trackerRegister (trackers : Dict Nat TrackerState) (depId cid : Nat) :
    Dict Nat TrackerState :=
  match Dict.fetch trackers depId with
  | none => trackers
  | some tr =>
    if cid ∈ tr.caches then trackers
    else Dict.store trackers depId { tr with caches := tr.caches ++ [cid] }

/-- One step of the dependency loop of `Cache.add`:

    dep_caches = function_caches(dep)
    dep_caches.add(self)
    if dep_id in self._deps_map:
        self._deps_map[dep_id][key] = dep_ids
        assert(dep_id in self._dep_caches)
    else:
        self._deps_map[dep_id] = {key: dep_ids}
        self._dep_caches[dep_id] = weakref.ref(dep_caches) -/
def addDepStep {K V : Type} [DecidableEq K] (cid : Nat) (key : K)
    (depIds : List Nat) (st : CST K V) (dep : Fn) : Except PyErr (CST K V) :=
  let trackers := trackerRegister (ensureTracker st.trackers dep) dep.id cid
  match Dict.fetch st.cs.depsMap dep.id with
  | some inner =>
    if dep.id ∈ st.cs.depCaches then
      Except.ok { st with
        cs := { st.cs with
          depsMap := Dict.store st.cs.depsMap dep.id (Dict.store inner key depIds) },
        trackers := trackers }
    else Except.error PyErr.assertionError
  | none =>
    Except.ok { st with
      cs := { st.cs with
        depsMap := Dict.store st.cs.depsMap dep.id [(key, depIds)],
        depCaches :=
          if dep.id ∈ st.cs.depCaches then st.cs.depCaches
          else st.cs.depCaches ++ [dep.id] },
      trackers := trackers }

/-- `Cache.add(key, value, deps=[])`: reject a duplicate key, allocate a
fresh `CacheRef` cell holding `value`, store it under `key`, then run the
dependency loop; returns the new cell's handle. -/
def Cache.add {K V : Type} [DecidableEq K] (w : World K V) (cid : Nat)
    (key : K) (v : V) (deps : List Fn) :
    Except PyErr (World K V × Nat) :=
  match Dict.fetch w.caches cid with
  | none => Except.error PyErr.keyError
  | some cs =>
    match Dict.fetch cs.cache key with
    | some _ => Except.error (PyErr.cacheException "Duplicate key")
    | none =>
      let rid := w.nextRef
      let depIds := deps.map Fn.id
      let st0 : CST K V := CST.mk
        { cs with cache := Dict.store cs.cache key rid }
        w.trackers
        (Dict.store w.refs rid (some v))
      match foldE (addDepStep cid key depIds) st0 deps with
      | Except.error e => Except.error e
      | Except.ok st =>
        Except.ok ({ w with
          caches := Dict.store w.caches cid st.cs,
          trackers := st.trackers,
          refs := st.refs,
          nextRef := w.nextRef + 1 }, rid)

/-- The body of the loop of `FunctionCaches.clear`, for one registered
cache id: skip a dead weakref, otherwise `cache.clear(self._id)` followed
by `assert(not cache.id() in self._caches)`. -/
def trackerClearStep {K V : Type} [DecidableEq K] (fid : Nat)
    (w : World K V) (cid : Nat) : Except PyErr (World K V) :=
  match Dict.fetch w.caches cid with
  | none => Except.ok w
  | some _ =>
    match Cache.clear w cid [fid] with
    | Except.error e => Except.error e
    | Except.ok w2 =>
      match Dict.fetch w2.trackers fid with
      | none => Except.error PyErr.assertionError
      | some tr2 =>
        if cid ∈ tr2.caches then Except.error PyErr.assertionError
        else Except.ok w2

/-- `FunctionCaches.clear()` on the tracker stored under `fid`: iterate a
copy of the registered caches, running the step above for each. -/
def trackerClear {K V : Type} [DecidableEq K] (w : World K V) (fid : Nat) :
    Except PyErr (World K V) :=
  match Dict.fetch w.trackers fid with
  | none => Except.error PyErr.keyError
  | some tr => foldE (trackerClearStep fid) w tr.caches

/-- `FunctionCaches.update(x)` on the tracker stored under `fid`: compare
the snapshot `(x.id(), function_state(x))` with the stored one; when they
differ, clear every registered cache with respect to this field and then
store the new snapshot. -/
def trackerUpdate {K V : Type} [DecidableEq K] (w : World K V) (fid : Nat)
    (x : Fn) : Except PyErr (World K V) :=
  match Dict.fetch w.trackers fid with
  | none => Except.error PyErr.keyError
  | some tr =>
    if (x.id, x.state) = tr.snapshot then Except.ok w
    else
      match trackerClear w fid with
      | Except.error e => Except.error e
      | Except.ok w2 =>
        match Dict.fetch w2.trackers fid with
        | none => Except.error PyErr.keyError
        | some tr2 =>
          Except.ok { w2 with
            trackers := Dict.store w2.trackers fid
              { tr2 with snapshot := (x.id, x.state) } }


/-! ## Symbolic forms (the slice of ufl that `caches.py` manipulates) -/

/-- `is_function(x)`: `isinstance(x, backend_Function)`. -/
def is_function (x : Fn) : Bool := x.isFunction

/-- A ufl scalar expression, restricted to the structure inspected by
`form_simplify_sign`: integer literals, products, and opaque atoms for
everything else. -/
inductive Expr where
  | intVal : Int → Expr
  | prod : Expr → Expr → Expr
  | atom : Nat → Expr
deriving DecidableEq, Repr

/-- `-e` on a ufl expression, the negation built by
`integral.reconstruct(integrand=-integrand)`. -/
def Expr.negE (e : Expr) : Expr := Expr.prod (Expr.intVal (-1)) e

/-- One integral of a form: its integrand plus an opaque tag standing for
the measure/domain/metadata preserved by `integral.reconstruct`. -/
structure Integral where
  integrand : Expr
  meta : Nat
deriving DecidableEq, Repr

/-- A ufl form: its integrals, the ranks of its arguments (`arguments()`,
whose length is the form rank) and its coefficients (`coefficients()` /
`extract_coefficients`). -/
structure Form where
  integrals : List Integral
  arguments : List Nat
  coefficients : List Fn
deriving DecidableEq, Repr

/-- `ufl.classes.Form([])`, the empty sentinel form. -/
def Form.emptyF : Form := ⟨[], [], []⟩

/-- `is_cached(e)`: every coefficient of the expression has an `is_cached`
attribute returning `True` (an object without the attribute counts as not
cached, which the `cached` field models). -/
def is_cachedForm (f : Form) : Bool := f.coefficients.all fun c => c.cached

/-- The stripping loop of `form_simplify_sign`: while the integrand is a
`Product` with a literal `-1` factor on either side, drop the factor and
flip (or initialize) the accumulated sign. -/
def stripSign : Expr → Option Int → Expr × Option Int
  | Expr.prod a b, s =>
    if a = Expr.intVal (-1) then
      stripSign b (match s with | none => some (-1) | some v => some (-v))
    else if b = Expr.intVal (-1) then
      stripSign a (match s with | none => some (-1) | some v => some (-v))
    else (Expr.prod a b, s)
  | e, s => (e, s)

/-- `form_simplify_sign(form, sign=None)`: strip literal `-1` factors from
each integrand and fold the accumulated sign back in (negating the
integrand when the final sign is negative, keeping the integral untouched
when no sign was ever set). -/
def form_simplify_sign (form : Form) (sign : Option Int) : Form :=
  { form with integrals := form.integrals.map fun i =>
      match stripSign i.integrand sign with
      | (e, some v) =>
        if v < 0 then { i with integrand := Expr.negE e }
        else { i with integrand := e }
      | (_, none) => i }

/-- `form_neg(form)`: negate a form by sign folding. -/
def form_neg (form : Form) : Form := form_simplify_sign form (some (-1))

/-- The external ufl operations `split_action` calls between its checks,
abstracted as oracles (their symbolic algebra is outside the caching
subsystem): `derivCoeffs form x` is the coefficient set of
`expand_derivatives(derivative(form, x, argument=TrialFunction(...)))`, and
`system form x` is `ufl.system(ufl.replace(form, {x: trial}))`, with
`none` standing for a raised `ufl.UFLException`. -/
structure UflOps where
  derivCoeffs : Form → Fn → List Fn
  system : Form → Fn → Option (Form × Form)

/-- `split_action(form, x)`: try to separate a rank-1 form that is linear
in `x` into a cacheable bilinear part and a remainder; every failed check
returns the sentinel `(ufl.classes.Form([]), form)`. -/
def split_action (ops : UflOps) (form : Form) (x : Fn) : Form × Form :=
  if form.arguments.length ≠ 1 then (Form.emptyF, form)
  else if x ∉ form.coefficients then (Form.emptyF, form)
  else if x ∈ ops.derivCoeffs form x then (Form.emptyF, form)
  else
    match ops.system form x with
    | none => (Form.emptyF, form)
    | some (lhs, rhs) =>
      if ¬ is_cachedForm lhs then (Form.emptyF, form)
      else (form_simplify_sign lhs none, form_neg rhs)

/-! ## ReplacementFunction and form canonicalization -/

/-- `ReplacementFunction(x)`: the immutable placeholder substituted for a
mutable field when canonicalizing a form key.  All fields are fixed at
construction from the original function `x`. -/
structure ReplacementFunction where
  id : Nat
  name : String
  state : Int
  static : Bool
  cached : Bool
  checkpointed : Bool
  tlmDepth : Nat
deriving DecidableEq, Repr

/-- `ReplacementFunction.__init__(self, x)`. -/
def replaced_function (x : Fn) : ReplacementFunction :=
  { id := x.id
    name := x.name
    state := -1
    static := function_is_static x
    cached := function_is_cached x
    checkpointed := function_is_checkpointed x
    tlmDepth := function_tlm_depth x }

/-- `ReplacementFunction.update_state`: always raises `CacheException`. -/
def ReplacementFunction.update_state (_r : ReplacementFunction) :
    Except PyErr Unit :=
  Except.error (PyErr.cacheException "Cannot change a ReplacementFunction")

/-- A `ReplacementFunction` seen as a form coefficient: it is a plain ufl
`Coefficient`, not a `backend_Function`, so `is_function` is false on it. -/
def ReplacementFunction.toFn (r : ReplacementFunction) : Fn :=
  ⟨r.id, r.name, r.state, false, r.static, r.cached, r.checkpointed, r.tlmDepth⟩

/-- The per-coefficient action of `replaced_form`: a `backend_Function`
coefficient is replaced by its (memoized, identity-keyed)
`ReplacementFunction`; anything else is kept. -/
def replaceCoeff (c : Fn) : Fn :=
  if c.isFunction then (replaced_function c).toFn else c

/-- `replaced_form(form)`: `ufl.replace` with the replacement map built
from the function coefficients.  In this model an expression references
its coefficients only through the form's coefficient list, so the
substitution acts on that list. -/
def replaced_form (form : Form) : Form :=
  { form with coefficients := form.coefficients.map replaceCoeff }

/-- `form_key(form)`: `replaced_form` followed by the three
`ufl.algorithms.expand_*` passes.  The expand passes are external
deterministic symbolic transforms outside the caching subsystem and are
modelled as the identity. -/
def form_key (form : Form) : Form := replaced_form form

/-- `form_dependencies(form)`: the function coefficients of the form,
keyed and deduplicated by field id, in first-encountered order. -/
def form_dependencies (form : Form) : Dict Nat Fn :=
  form.coefficients.foldl
    (fun (deps : Dict Nat Fn) dep =>
      if is_function dep then
        match Dict.fetch deps dep.id with
        | some _ => deps
        | none => Dict.store deps dep.id dep
      else deps) []

/-! ## AssemblyCache -/

/-- An opaque parameter dictionary (`form_compiler_parameters`,
`solver_parameters`), identified by its canonical content. -/
abbrev Params := Nat

/-- Modelled from the spec: `assemble_arguments` lives in
`backend_code_generator_interface` (not part of the caching module);
it deterministically derives the assembly keyword arguments from the form
rank and the two parameter dictionaries. -/
def assemble_arguments (rank : Nat) (fcp sp : Params) :
    Nat × Params × Params := (rank, fcp, sp)

/-- Modelled from the spec: `parameters_key` (same external module)
derives a canonical hashable key from a parameter dictionary;
deterministic by construction. -/
def parameters_key (kw : Nat × Params × Params) : Nat × Params × Params := kw

/-- A Dirichlet boundary condition, identified by object identity (which
is what hashing `tuple(bcs)` into the cache key uses). -/
structure BCd where
  id : Nat
deriving DecidableEq, Repr

/-- The assembly keyword arguments. -/
abbrev AKw := Nat × Params × Params

/-- `assemble_key(form, bcs, assemble_kwargs)`. -/
abbrev AKey := Form × List BCd × AKw

/-- `assemble_key(form, bcs, assemble_kwargs) =
(form_key(form), tuple(bcs), parameters_key(assemble_kwargs))`. -/
def assemble_key (form : Form) (bcs : List BCd) (kw : AKw) : AKey :=
  (form_key form, bcs, parameters_key kw)

/-- Values produced by the external backend numeric layer, as a free
algebra: `assembled` is `assemble(form, **kwargs)`, `bcApplied` is
`bc.apply(b)` on a vector, `assembledMatrix` is
`assemble_matrix(form, bcs, force_evaluation=True, **kwargs)`. -/
inductive AVal where
  | assembled : Form → AKw → AVal
  | bcApplied : Nat → AVal → AVal
  | assembledMatrix : Form → List Nat → AKw → AVal
deriving DecidableEq, Repr

/-- The rank dispatch of `AssemblyCache.assemble` on a miss: assemble a
scalar (rejecting boundary conditions), a vector (applying each boundary
condition in order) or a matrix, and reject any other rank. -/
def assembleValue (rank : Nat) (aform : Form) (bcs : List BCd) (kw : AKw) :
    Except PyErr AVal :=
  if rank = 0 then
    if bcs.length > 0 then
      Except.error (PyErr.cacheException
        "Unexpected boundary conditions for rank 0 form")
    else Except.ok (AVal.assembled aform kw)
  else if rank = 1 then
    Except.ok (bcs.foldl (fun b bc => AVal.bcApplied bc.id b)
      (AVal.assembled aform kw))
  else if rank = 2 then
    Except.ok (AVal.assembledMatrix aform (bcs.map BCd.id) kw)
  else
    Except.error (PyErr.cacheException ("Unexpected form rank " ++ toString rank))

/-- The form actually assembled on a miss: `form` itself when no replace
map is given, otherwise the (externally computed) result of
`ufl.replace(form, replace_map)`. -/
def replaceMapForm (rm : Option Form) (form : Form) : Form :=
  match rm with
  | none => form
  | some f => f

/-- `AssemblyCache.assemble(form, bcs, form_compiler_parameters,
solver_parameters, replace_map)` on the cache object `cid`.  The
`replaceMap` argument carries the result of the external
`ufl.replace(form, replace_map)` substitution when a replace map is
supplied.  On a hit with a live cell the stored handle and value are
returned unchanged; otherwise the form is assembled according to its rank
and inserted with the form's function dependencies. -/
def AssemblyCache.assemble (w : World AKey AVal) (cid : Nat) (form : Form)
    (bcs : List BCd) (fcp sp : Params) (replaceMap : Option Form) :
    Except PyErr (World AKey AVal × Nat × AVal) :=
  let rank := form.arguments.length
  let kw := assemble_arguments rank fcp sp
  let key := assemble_key form bcs kw
  let hit : Option (Nat × AVal) :=
    match Cache.get w cid key with
    | some rid =>
      match refRead w rid with
      | some b => some (rid, b)
      | none => none
    | none => none
  match hit with
  | some rb => Except.ok (w, rb.1, rb.2)
  | none =>
    let aform := replaceMapForm replaceMap form
    match assembleValue rank aform bcs kw with
    | Except.error e => Except.error e
    | Except.ok b =>
      match Cache.add w cid key b ((form_dependencies form).map Prod.snd) with
      | Except.error e => Except.error e
      | Except.ok wr => Except.ok (wr.1, wr.2, b)

/-! ## Reachable worlds -/

/-- The worlds reachable from the empty process state through the public
operations of the subsystem: constructing caches and trackers, successful
inserts, successful selective or full clears, and successful tracker
clears/updates (`AssemblyCache.assemble` and `LinearSolverCache` mutate the
world only through `Cache.add`, so they add no transitions). -/
inductive Reachable {K V : Type} [DecidableEq K] : World K V → Prop where
  | init : Reachable (World.empty K V)
  | newCache (w : World K V) (cid : Nat) : Reachable w →
      Dict.fetch w.caches cid = none →
      Reachable { w with
        caches := Dict.store w.caches cid (CacheState.empty K) }
  | newTracker (w : World K V) (f : Fn) : Reachable w →
      Dict.fetch w.trackers f.id = none →
      Reachable { w with
        trackers := Dict.store w.trackers f.id (TrackerState.mk [] (f.id, f.state)) }
  | addOk (w : World K V) (cid : Nat) (key : K) (v : V) (deps : List Fn)
      (w2 : World K V) (rid : Nat) : Reachable w →
      Cache.add w cid key v deps = Except.ok (w2, rid) → Reachable w2
  | clearOk (w : World K V) (cid : Nat) (deps : List Nat) (w2 : World K V) :
      Reachable w → Cache.clear w cid deps = Except.ok w2 → Reachable w2
  | trackerClearOk (w : World K V) (fid : Nat) (w2 : World K V) :
      Reachable w → trackerClear w fid = Except.ok w2 → Reachable w2
  | trackerUpdateOk (w : World K V) (fid : Nat) (x : Fn) (w2 : World K V) :
      Reachable w → trackerUpdate w fid x = Except.ok w2 → Reachable w2


/-- The world after inserting `k ↦ v` with dependencies `[a, b]` into the
empty cache `cid` of `w` (both trackers freshly created). -/
def c2World1 {K V : Type} (w : World K V) (cid : Nat) (k : K) (v : V)
    (a b : Fn) : World K V :=
  { w with
    caches := Dict.store w.caches cid
      ⟨[(k, w.nextRef)],
       [(a.id, [(k, [a.id, b.id])]), (b.id, [(k, [a.id, b.id])])],
       [a.id, b.id]⟩,
    trackers := Dict.store
      (Dict.store w.trackers a.id ⟨[cid], (a.id, a.state)⟩)
      b.id ⟨[cid], (b.id, b.state)⟩,
    refs := Dict.store w.refs w.nextRef (some v),
    nextRef := w.nextRef + 1 }

/-- The world after then selectively clearing dependency `a`. -/
def c2World2 {K V : Type} (w : World K V) (cid : Nat) (a b : Fn) :
    World K V :=
  { w with
    caches := Dict.store w.caches cid ⟨[], [], []⟩,
    trackers := Dict.store (Dict.store
      (Dict.store w.trackers a.id ⟨[cid], (a.id, a.state)⟩)
      b.id ⟨[], (b.id, b.state)⟩) a.id ⟨[], (a.id, a.state)⟩,
    refs := Dict.store w.refs w.nextRef none,
    nextRef := w.nextRef + 1 }

/-- The world after then inserting `k2 ↦ v2` with dependency `[b]`. -/
def c2World3 {K V : Type} (w : World K V) (cid : Nat) (k2 : K) (v2 : V)
    (a b : Fn) : World K V :=
  { c2World2 w cid a b with
    caches := Dict.store (c2World2 w cid a b).caches cid
      ⟨[(k2, (c2World2 w cid a b).nextRef)],
       [(b.id, [(k2, [b.id])])], [b.id]⟩,
    trackers := Dict.store (c2World2 w cid a b).trackers b.id
      ⟨[] ++ [cid], (b.id, b.state)⟩,
    refs := Dict.store (c2World2 w cid a b).refs
      (c2World2 w cid a b).nextRef (some v2),
    nextRef := (c2World2 w cid a b).nextRef + 1 }

/-- The world after inserting `k ↦ v` with the duplicated dependency list
`[b, b]` into the empty cache `cid` of `w`. -/
def c7World1 {K V : Type} (w : World K V) (cid : Nat) (k : K) (v : V)
    (b : Fn) : World K V :=
  { w with
    caches := Dict.store w.caches cid
      ⟨[(k, w.nextRef)], [(b.id, [(k, [b.id, b.id])])], [b.id]⟩,
    trackers := Dict.store w.trackers b.id ⟨[cid], (b.id, b.state)⟩,
    refs := Dict.store w.refs w.nextRef (some v),
    nextRef := w.nextRef + 1 }

/-- The world after then selectively clearing `b` itself. -/
def c7World2 {K V : Type} (w : World K V) (cid : Nat) (b : Fn) :
    World K V :=
  { w with
    caches := Dict.store w.caches cid ⟨[], [], []⟩,
    trackers := Dict.store w.trackers b.id ⟨[], (b.id, b.state)⟩,
    refs := Dict.store w.refs w.nextRef none,
    nextRef := w.nextRef + 1 }

/-- The world after inserting `k ↦ v` with dependency list `[b, b, a]`
(field `b` duplicated, plus a distinct field `a`) into the empty cache
`cid` of `w`. -/
def c7World1x {K V : Type} (w : World K V) (cid : Nat) (k : K) (v : V)
    (b a : Fn) : World K V :=
  { w with
    caches := Dict.store w.caches cid
      ⟨[(k, w.nextRef)],
       [(b.id, [(k, [b.id, b.id, a.id])]), (a.id, [(k, [b.id, b.id, a.id])])],
       [b.id, a.id]⟩,
    trackers := Dict.store
      (Dict.store w.trackers b.id ⟨[cid], (b.id, b.state)⟩)
      a.id ⟨[cid], (a.id, a.state)⟩,
    refs := Dict.store w.refs w.nextRef (some v),
    nextRef := w.nextRef + 1 }

/-- The cross-cache cell invariant of reachable worlds: every stored key
maps to a live cell, distinct stored keys (across all caches) own
distinct cells, every stored cell id is below the allocator, and every
cache's primary map has unique keys. -/
structure Inv {K V : Type} [DecidableEq K] (w : World K V) : Prop where
  live : ∀ cid cs k rid, Dict.fetch w.caches cid = some cs →
    Dict.fetch cs.cache k = some rid → refRead w rid ≠ none
  inj : ∀ cid cs k rid cid2 cs2 k2,
    Dict.fetch w.caches cid = some cs →
    Dict.fetch cs.cache k = some rid →
    Dict.fetch w.caches cid2 = some cs2 →
    Dict.fetch cs2.cache k2 = some rid →
    cid = cid2 ∧ k = k2
  fresh : ∀ cid cs k rid, Dict.fetch w.caches cid = some cs →
    Dict.fetch cs.cache k = some rid → rid < w.nextRef
  nodup : ∀ cid cs, Dict.fetch w.caches cid = some cs →
    Dict.NodupKeys cs.cache

/-- The world mid-way through a `Cache.add`/`Cache.clear` loop: the
working copy of cache `cid` written back, together with the working
trackers and ref store. -/
def asmW {K V : Type} [DecidableEq K] (w : World K V) (cid : Nat)
    (st : CST K V) : World K V :=
  { w with
    caches := Dict.store w.caches cid st.cs,
    trackers := st.trackers,
    refs := st.refs }

/-! ## Concrete fixtures for witnesses -/

/-- A sample static function field with identity 1. -/
def sampleFnA : Fn := ⟨1, "a", 0, true, true, true, false, 0⟩

/-- A sample static function field with identity 2. -/
def sampleFnB : Fn := ⟨2, "b", 0, true, true, true, false, 0⟩

/-- A world holding one freshly constructed cache with id 0. -/
def sampleW0 : World Nat Nat := ⟨[(0, CacheState.empty Nat)], [], [], 0⟩

/-- Extract the world of a successful world-returning operation. -/
def exWorld {K V : Type} (r : Except PyErr (World K V)) (d : World K V) :
    World K V :=
  match r with
  | Except.ok w => w
  | Except.error _ => d

/-- Oracles for the external ufl operations in which every symbolic step
fails: the derivative has no coefficients and `ufl.system` raises. -/
def sampleOps : UflOps := ⟨fun _ _ => [], fun _ _ => none⟩

/-- Extract the world of a successful insert. -/
def exAddW {K V : Type} (r : Except PyErr (World K V × Nat))
    (d : World K V) : World K V :=
  match r with
  | Except.ok wr => wr.1
  | Except.error _ => d

/-! ## Lemmas about `Dict` -/

namespace Dict

variable {α β : Type} [DecidableEq α]

@[simp] theorem fetch_nil (k : α) : fetch ([] : Dict α β) k = none := rfl

@[simp] theorem fetch_cons (p : α × β) (rest : Dict α β) (k : α) :
    fetch (p :: rest) k = if p.1 = k then some p.2 else fetch rest k := rfl

@[simp] theorem store_cons (p : α × β) (rest : Dict α β) (k : α) (v : β) :
    store (p :: rest) k v =
      if p.1 = k then (k, v) :: rest else p :: store rest k v := rfl

@[simp] theorem remove_cons (p : α × β) (rest : Dict α β) (k : α) :
    remove (p :: rest) k = if p.1 = k then rest else p :: remove rest k := rfl

@[simp] theorem fetch_store_self (d : Dict α β) (k : α) (v : β) :
    fetch (store d k v) k = some v := by
  induction d with
  | nil => simp [store]
  | cons hd tl ih =>
    by_cases h : hd.1 = k
    · simp [store, h]
    · simp [store, h, ih]

theorem fetch_store_ne (d : Dict α β) (k k' : α) (v : β) (h : k' ≠ k) :
    fetch (store d k v) k' = fetch d k' := by
  induction d with
  | nil => simp [store, Ne.symm h]
  | cons hd tl ih =>
    by_cases hh : hd.1 = k
    · subst hh
      simp [store, Ne.symm h]
    · simp [store, hh, ih]

theorem fetch_remove_ne (d : Dict α β) (k k' : α) (h : k' ≠ k) :
    fetch (remove d k) k' = fetch d k' := by
  induction d with
  | nil => simp [remove]
  | cons hd tl ih =>
    by_cases hh : hd.1 = k
    · subst hh
      simp [remove, Ne.symm h]
    · simp [remove, hh, ih]

theorem fetch_eq_none_of_not_mem_keys (d : Dict α β) (k : α)
    (h : k ∉ keys d) : fetch d k = none := by
  induction d with
  | nil => rfl
  | cons hd tl ih =>
    simp only [keys, List.map_cons, List.mem_cons, not_or] at h
    simp [Ne.symm h.1, ih (by simpa [keys] using h.2)]

theorem fetch_remove_self (d : Dict α β) (k : α) (h : NodupKeys d) :
    fetch (remove d k) k = none := by
  induction d with
  | nil => rfl
  | cons hd tl ih =>
    simp only [NodupKeys, keys, List.map_cons, List.nodup_cons] at h
    by_cases hh : hd.1 = k
    · subst hh
      simpa only [remove, if_pos rfl] using
        fetch_eq_none_of_not_mem_keys tl hd.1 h.1
    · simp [remove_cons, hh, ih h.2]

theorem keys_remove_sublist (d : Dict α β) (k : α) :
    (keys (remove d k)).Sublist (keys d) := by
  induction d with
  | nil => simp [remove]
  | cons hd tl ih =>
    by_cases hh : hd.1 = k
    · simp only [remove_cons, hh, if_pos rfl, keys, List.map_cons]
      exact List.sublist_cons_self _ _
    · simpa only [remove, hh, if_false, keys, List.map_cons] using ih.cons₂ hd.1

theorem nodupKeys_remove (d : Dict α β) (k : α) (h : NodupKeys d) :
    NodupKeys (remove d k) :=
  (keys_remove_sublist d k).nodup h

theorem mem_keys_store (d : Dict α β) (k : α) (v : β) (a : α)
    (ha : a ∈ keys (store d k v)) : a = k ∨ a ∈ keys d := by
  induction d with
  | nil => simpa [store, keys] using ha
  | cons hd tl ih =>
    by_cases hh : hd.1 = k
    · subst hh
      simpa [store, keys] using ha
    · simp only [store, hh, if_false, keys, List.map_cons, List.mem_cons] at ha ⊢
      rcases ha with ha | ha
      · exact .inr (.inl ha)
      · rcases ih ha with h1 | h1
        · exact .inl h1
        · exact .inr (.inr h1)

theorem nodupKeys_store (d : Dict α β) (k : α) (v : β) (h : NodupKeys d) :
    NodupKeys (store d k v) := by
  induction d with
  | nil => simp [store, NodupKeys, keys]
  | cons hd tl ih =>
    simp only [NodupKeys, keys, List.map_cons, List.nodup_cons] at h
    by_cases hh : hd.1 = k
    · subst hh
      have hs : store (hd :: tl) hd.1 v = (hd.1, v) :: tl := by simp
      rw [hs]
      simp only [NodupKeys, keys, List.map_cons, List.nodup_cons]
      exact ⟨h.1, h.2⟩
    · simp only [store, hh, if_false, NodupKeys, keys, List.map_cons, List.nodup_cons]
      refine ⟨?_, ih h.2⟩
      intro hm
      rcases mem_keys_store tl k v hd.1 hm with h1 | h1
      · exact hh h1
      · exact h.1 h1

/-- With unique keys, membership determines lookup. -/
theorem fetch_of_mem (d : Dict α β) (k : α) (v : β) (h : NodupKeys d)
    (hm : (k, v) ∈ d) : fetch d k = some v := by
  induction d with
  | nil => simp at hm
  | cons hd tl ih =>
    simp only [NodupKeys, keys, List.map_cons, List.nodup_cons] at h
    rcases List.mem_cons.mp hm with hm | hm
    · subst hm; simp
    · have hk : hd.1 ≠ k := by
        intro he
        exact h.1 (he ▸ List.mem_map_of_mem Prod.fst hm)
      simp [hk, ih h.2 hm]

/-- A successful lookup exhibits a member. -/
theorem mem_of_fetch (d : Dict α β) (k : α) (v : β) (h : fetch d k = some v) :
    (k, v) ∈ d := by
  induction d with
  | nil => simp [fetch] at h
  | cons hd tl ih =>
    simp only [fetch_cons] at h
    by_cases hh : hd.1 = k
    · simp only [hh, if_pos rfl, Option.some.injEq] at h
      exact List.mem_cons.mpr (.inl (by cases hd; simp_all))
    · simp only [hh, if_false] at h
      exact List.mem_cons_of_mem _ (ih h)

/-- A lookup surviving a removal was present before (under unique keys). -/
theorem fetch_remove_sub (d : Dict α β) (k k' : α) (v : β) (h : NodupKeys d)
    (hf : fetch (remove d k) k' = some v) : fetch d k' = some v := by
  by_cases hk : k' = k
  · subst hk
    rw [fetch_remove_self d k' h] at hf
    cases hf
  · rwa [fetch_remove_ne d k k' hk] at hf

end Dict

/-! ## Basic lemmas about cells and the clear loops -/

theorem cellRead_store_self {V : Type} (refs : Dict Nat (Option V))
    (r : Nat) (c : Option V) : cellRead (Dict.store refs r c) r = c := by
  simp [cellRead]

theorem cellRead_store_ne {V : Type} (refs : Dict Nat (Option V))
    (r r' : Nat) (c : Option V) (h : r' ≠ r) :
    cellRead (Dict.store refs r c) r' = cellRead refs r' := by
  simp [cellRead, Dict.fetch_store_ne refs r r' c h]

/-- Clearing one cell never revives another: a live read after the store
was live before. -/
theorem cellRead_store_none_sub {V : Type} (refs : Dict Nat (Option V))
    (r r' : Nat) (v : V)
    (h : cellRead (Dict.store refs r none) r' = some v) :
    cellRead refs r' = some v := by
  by_cases he : r' = r
  · subst he
    rw [cellRead_store_self] at h
    cases h
  · rwa [cellRead_store_ne refs r r' none he] at h

@[simp] theorem foldE_nil {σ α ε : Type} (f : σ → α → Except ε σ) (s : σ) :
    foldE f s [] = Except.ok s := rfl

theorem foldE_cons_ok {σ α ε : Type} (f : σ → α → Except ε σ) (s s1 : σ)
    (a : α) (l : List α) (h : f s a = Except.ok s1) :
    foldE f s (a :: l) = foldE f s1 l := by
  simp [foldE, h]

/-- `clearDepInner` touches only the reverse index and the trackers: the
primary map and the ref cells pass through unchanged. -/
theorem clearDepInner_cache_refs {K V : Type} [DecidableEq K]
    (cid depId : Nat) (key : K) (st st' : CST K V) (d2 : Nat)
    (h : clearDepInner cid depId key st d2 = Except.ok st') :
    st'.cs.cache = st.cs.cache ∧ st'.refs = st.refs := by
  unfold clearDepInner at h
  repeat' split at h
  all_goals cases h
  all_goals exact ⟨rfl, rfl⟩

/-- The inner loop over a dependency-id tuple preserves the primary map
and the ref cells. -/
theorem clearDepInnerFold_cache_refs {K V : Type} [DecidableEq K]
    (cid depId : Nat) (key : K) (ids : List Nat) (st st' : CST K V)
    (h : foldE (clearDepInner cid depId key) st ids = Except.ok st') :
    st'.cs.cache = st.cs.cache ∧ st'.refs = st.refs := by
  induction ids generalizing st with
  | nil =>
    rw [foldE_nil] at h
    cases h
    exact ⟨rfl, rfl⟩
  | cons d rest ih =>
    unfold foldE at h
    cases hs : clearDepInner cid depId key st d with
    | error e => rw [hs] at h; cases h
    | ok st1 =>
      rw [hs] at h
      obtain ⟨e1, e2⟩ := clearDepInner_cache_refs cid depId key st st1 d hs
      obtain ⟨e3, e4⟩ := ih st1 h
      exact ⟨e3.trans e1, e4.trans e2⟩

/-- A successful `clearDepItem` step: the removed key was present, the
primary map loses exactly that key and its cell is cleared. -/
theorem clearDepItem_shape {K V : Type} [DecidableEq K] (cid depId : Nat)
    (st st' : CST K V) (item : K × List Nat)
    (h : clearDepItem cid depId st item = Except.ok st') :
    ∃ rid, Dict.fetch st.cs.cache item.1 = some rid ∧
      st'.cs.cache = Dict.remove st.cs.cache item.1 ∧
      st'.refs = Dict.store st.refs rid none := by
  unfold clearDepItem at h
  cases hf : Dict.fetch st.cs.cache item.1 with
  | none => rw [hf] at h; cases h
  | some rid =>
    rw [hf] at h
    obtain ⟨e1, e2⟩ := clearDepInnerFold_cache_refs cid depId item.1 item.2 _ st' h
    exact ⟨rid, rfl, by simpa using e1, by simpa using e2⟩

/-- Monotonicity of the item loop: it can only remove primary-map entries
and only clear cells, so surviving lookups and live reads were already
present at the start. -/
theorem clearDepItemFold_mono {K V : Type} [DecidableEq K]
    (cid depId : Nat) (items : List (K × List Nat)) (st st' : CST K V)
    (hnd : Dict.NodupKeys st.cs.cache)
    (h : foldE (clearDepItem cid depId) st items = Except.ok st') :
    (∀ k r, Dict.fetch st'.cs.cache k = some r →
      Dict.fetch st.cs.cache k = some r) ∧
    (∀ r v, cellRead st'.refs r = some v → cellRead st.refs r = some v) ∧
    Dict.NodupKeys st'.cs.cache := by
  induction items generalizing st with
  | nil =>
    rw [foldE_nil] at h
    cases h
    exact ⟨fun _ _ hh => hh, fun _ _ hh => hh, hnd⟩
  | cons item rest ih =>
    unfold foldE at h
    cases hs : clearDepItem cid depId st item with
    | error e => rw [hs] at h; cases h
    | ok st1 =>
      rw [hs] at h
      obtain ⟨rid, hrid, hc, hr⟩ := clearDepItem_shape cid depId st st1 item hs
      have hnd1 : Dict.NodupKeys st1.cs.cache := by
        rw [hc]; exact Dict.nodupKeys_remove _ _ hnd
      obtain ⟨m1, m2, m3⟩ := ih st1 hnd1 h
      refine ⟨?_, ?_, m3⟩
      · intro k r hk
        have h2 := m1 k r hk
        rw [hc] at h2
        exact Dict.fetch_remove_sub _ _ _ _ hnd h2
      · intro r v hv
        have h2 := m2 r v hv
        rw [hr] at h2
        exact cellRead_store_none_sub _ _ _ _ h2

/-- The clearing effect of the item loop: every item key listed under the
cleared dependency is removed from the primary map and its cell reads
empty afterwards. -/
theorem clearDepItemFold_clears {K V : Type} [DecidableEq K]
    (cid depId : Nat) (items : List (K × List Nat)) (st st' : CST K V)
    (k : K) (ids : List Nat) (rid : Nat)
    (hnd : Dict.NodupKeys st.cs.cache)
    (hmem : (k, ids) ∈ items)
    (hrid : Dict.fetch st.cs.cache k = some rid)
    (h : foldE (clearDepItem cid depId) st items = Except.ok st') :
    Dict.fetch st'.cs.cache k = none ∧ cellRead st'.refs rid = none := by
  induction items generalizing st with
  | nil => simp at hmem
  | cons item rest ih =>
    unfold foldE at h
    cases hs : clearDepItem cid depId st item with
    | error e => rw [hs] at h; cases h
    | ok st1 =>
      rw [hs] at h
      obtain ⟨rid1, hrid1, hc, hr⟩ := clearDepItem_shape cid depId st st1 item hs
      have hnd1 : Dict.NodupKeys st1.cs.cache := by
        rw [hc]; exact Dict.nodupKeys_remove _ _ hnd
      by_cases hk : item.1 = k
      · have hrr : rid1 = rid := by
          rw [hk] at hrid1
          rw [hrid1] at hrid
          cases hrid
          rfl
        subst hrr
        have hkc : Dict.fetch st1.cs.cache k = none := by
          rw [hc, hk]
          exact Dict.fetch_remove_self _ _ hnd
        have hkr : cellRead st1.refs rid1 = none := by
          rw [hr]
          exact cellRead_store_self _ _ _
        obtain ⟨m1, m2, _⟩ := clearDepItemFold_mono cid depId rest st1 st' hnd1 h
        constructor
        · cases hfin : Dict.fetch st'.cs.cache k with
          | none => rfl
          | some r =>
            have h2 := m1 k r hfin
            rw [hkc] at h2
            cases h2
        · cases hfin : cellRead st'.refs rid1 with
          | none => rfl
          | some v =>
            have h2 := m2 rid1 v hfin
            rw [hkr] at h2
            cases h2
      · rcases List.mem_cons.mp hmem with he | hmem2
        · exact absurd (congrArg Prod.fst he).symm hk
        · have hrid2 : Dict.fetch st1.cs.cache k = some rid := by
            rw [hc, Dict.fetch_remove_ne _ _ _ (fun hh => hk hh.symm)]
            exact hrid
          exact ih st1 hnd1 hmem2 hrid2 h


/-- Refs-only monotonicity of the item loop (no uniqueness needed): live
reads after the loop were live before. -/
theorem clearDepItemFold_refs_mono {K V : Type} [DecidableEq K]
    (cid depId : Nat) (items : List (K × List Nat)) (st st' : CST K V)
    (h : foldE (clearDepItem cid depId) st items = Except.ok st') :
    ∀ r v, cellRead st'.refs r = some v → cellRead st.refs r = some v := by
  induction items generalizing st with
  | nil =>
    rw [foldE_nil] at h
    cases h
    exact fun _ _ hh => hh
  | cons item rest ih =>
    unfold foldE at h
    cases hs : clearDepItem cid depId st item with
    | error e => rw [hs] at h; cases h
    | ok st1 =>
      rw [hs] at h
      obtain ⟨rid, _, _, hr⟩ := clearDepItem_shape cid depId st st1 item hs
      intro r v hv
      have h2 := ih st1 h r v hv
      rw [hr] at h2
      exact cellRead_store_none_sub _ _ _ _ h2

/-- Anatomy of a successful selective clear for one dependency id: either
the id is untracked and the world is unchanged, or the item loop ran on
the recorded items and the dependency's own reverse entries and tracker
registration were then dropped. -/
theorem clearDep_shape {K V : Type} [DecidableEq K] (w w' : World K V)
    (cid depId : Nat) (h : clearDep w cid depId = Except.ok w') :
    ∃ cs, Dict.fetch w.caches cid = some cs ∧
      ((Dict.fetch cs.depsMap depId = none ∧ w' = w) ∨
       (∃ items st trackers2,
         Dict.fetch cs.depsMap depId = some items ∧
         foldE (clearDepItem cid depId)
           (CST.mk cs w.trackers w.refs) items = Except.ok st ∧
         (Dict.fetch st.cs.depsMap depId).isSome ∧
         depId ∈ st.cs.depCaches ∧
         trackerDeregister st.trackers depId cid = Except.ok trackers2 ∧
         w' = { w with
           caches := Dict.store w.caches cid { st.cs with
             depsMap := Dict.remove st.cs.depsMap depId,
             depCaches := st.cs.depCaches.erase depId },
           trackers := trackers2,
           refs := st.refs })) := by
  unfold clearDep at h
  split at h
  · cases h
  next cs2 hcs =>
    refine ⟨cs2, hcs, ?_⟩
    split at h
    next hdm =>
      cases h
      exact Or.inl ⟨hdm, rfl⟩
    next items hdm =>
      split at h
      · cases h
      next st hfold =>
        split at h
        · cases h
        next inner2 hdm2 =>
          split at h
          next hdc =>
            split at h
            · cases h
            next trackers2 hdereg =>
              cases h
              exact Or.inr ⟨items, st, trackers2, hdm, hfold,
                by simp [hdm2], hdc, hdereg, rfl⟩
          next hdc => cases h

/-- A selective clear on one cache never touches the state of another. -/
theorem clearDep_fetch_caches_ne {K V : Type} [DecidableEq K]
    (w w' : World K V) (cid depId : Nat) (cid2 : Nat) (hne : cid2 ≠ cid)
    (h : clearDep w cid depId = Except.ok w') :
    Dict.fetch w'.caches cid2 = Dict.fetch w.caches cid2 := by
  obtain ⟨cs, _, hcase⟩ := clearDep_shape w w' cid depId h
  rcases hcase with ⟨_, rfl⟩ | ⟨items, st, trackers2, _, _, _, _, _, rfl⟩
  · rfl
  · exact Dict.fetch_store_ne _ _ _ _ hne

/-- Live reads survive backwards through a selective clear. -/
theorem clearDep_refRead_mono {K V : Type} [DecidableEq K]
    (w w' : World K V) (cid depId : Nat)
    (h : clearDep w cid depId = Except.ok w') :
    ∀ r v, refRead w' r = some v → refRead w r = some v := by
  obtain ⟨cs, _, hcase⟩ := clearDep_shape w w' cid depId h
  rcases hcase with ⟨_, rfl⟩ | ⟨items, st, trackers2, _, hfold, _, _, _, rfl⟩
  · exact fun _ _ hh => hh
  · intro r v hv
    exact clearDepItemFold_refs_mono cid depId items _ st hfold r v hv

theorem clearDep_nextRef {K V : Type} [DecidableEq K]
    (w w' : World K V) (cid depId : Nat)
    (h : clearDep w cid depId = Except.ok w') :
    w'.nextRef = w.nextRef := by
  obtain ⟨cs, _, hcase⟩ := clearDep_shape w w' cid depId h
  rcases hcase with ⟨_, rfl⟩ | ⟨_, _, _, _, _, _, _, _, rfl⟩
  · rfl
  · rfl

/-- The key clearing fact: a successful `clearDep` removes every key
recorded under the dependency from the primary map and clears its cell. -/
theorem clearDep_clears {K V : Type} [DecidableEq K] (w w' : World K V)
    (cid depId : Nat) (cs : CacheState K) (items : Dict K (List Nat))
    (k : K) (ids : List Nat) (rid : Nat)
    (hcs : Dict.fetch w.caches cid = some cs)
    (hnd : Dict.NodupKeys cs.cache)
    (hitems : Dict.fetch cs.depsMap depId = some items)
    (hmem : (k, ids) ∈ items)
    (hrid : Dict.fetch cs.cache k = some rid)
    (h : clearDep w cid depId = Except.ok w') :
    Cache.get w' cid k = none ∧ refRead w' rid = none := by
  obtain ⟨cs2, hcs2, hcase⟩ := clearDep_shape w w' cid depId h
  rw [hcs] at hcs2
  cases hcs2
  rcases hcase with ⟨hnone, _⟩ | ⟨items2, st, trackers2, hitems2, hfold, _, _, _, rfl⟩
  · rw [hitems] at hnone; cases hnone
  · rw [hitems] at hitems2
    cases hitems2
    obtain ⟨hc, hr⟩ := clearDepItemFold_clears cid depId items
      (CST.mk cs w.trackers w.refs) st k ids rid hnd hmem hrid hfold
    constructor
    · show Cache.get _ cid k = none
      unfold Cache.get
      simp only [Dict.fetch_store_self]
      exact hc
    · show refRead _ rid = none
      unfold refRead
      exact hr


/-- Clearing a single named dependency is exactly `clearDep`. -/
theorem clear_one {K V : Type} [DecidableEq K] (w : World K V)
    (cid d : Nat) : Cache.clear w cid [d] = clearDep w cid d := by
  unfold Cache.clear
  cases h : clearDep w cid d with
  | error e => simp [foldE, h]
  | ok w2 => simp [foldE, h]

theorem foldE_append_ok {σ α ε : Type} (f : σ → α → Except ε σ)
    (s s' : σ) (l1 l2 : List α)
    (h : foldE f s (l1 ++ l2) = Except.ok s') :
    ∃ s1, foldE f s l1 = Except.ok s1 ∧ foldE f s1 l2 = Except.ok s' := by
  induction l1 generalizing s with
  | nil => exact ⟨s, rfl, h⟩
  | cons a rest ih =>
    rw [List.cons_append] at h
    unfold foldE at h
    cases hs : f s a with
    | error e => rw [hs] at h; cases h
    | ok s1 =>
      rw [hs] at h
      obtain ⟨s2, h1, h2⟩ := ih s1 h
      refine ⟨s2, ?_, h2⟩
      rw [foldE_cons_ok f s s1 a rest hs]
      exact h1

/-- The ref-store rewrite of a full clear only clears cells. -/
theorem clearRefsFold_mono {K V : Type} (l : List (K × Nat))
    (refs : Dict Nat (Option V)) (r : Nat) (v : V)
    (h : cellRead (l.foldl (fun refs kv => Dict.store refs kv.2 none) refs) r
      = some v) : cellRead refs r = some v := by
  induction l generalizing refs with
  | nil => exact h
  | cons kv rest ih =>
    rw [List.foldl_cons] at h
    exact cellRead_store_none_sub _ _ _ _ (ih _ h)

/-- The ref-store rewrite of a full clear empties every cell named by the
cleared cache's entries. -/
theorem clearRefsFold_clears {K V : Type} (l : List (K × Nat))
    (refs : Dict Nat (Option V)) (k : K) (r : Nat) (hm : (k, r) ∈ l) :
    cellRead (l.foldl (fun refs kv => Dict.store refs kv.2 none) refs) r
      = none := by
  induction l generalizing refs with
  | nil => simp at hm
  | cons kv rest ih =>
    rw [List.foldl_cons]
    rcases List.mem_cons.mp hm with he | hm2
    · subst he
      cases hfin : cellRead
          (rest.foldl (fun refs kv => Dict.store refs kv.2 none)
            (Dict.store refs r none)) r with
      | none => rfl
      | some v =>
        have h2 := clearRefsFold_mono rest _ r v hfin
        rw [cellRead_store_self] at h2
        cases h2
    · exact ih _ hm2

/-- Anatomy of a successful full clear. -/
theorem clearAll_shape {K V : Type} [DecidableEq K] (w w' : World K V)
    (cid : Nat) (h : clearAll w cid = Except.ok w') :
    ∃ cs trackers2, Dict.fetch w.caches cid = some cs ∧
      foldE (fun trackers d => trackerDeregister trackers d cid)
        w.trackers cs.depCaches = Except.ok trackers2 ∧
      w' = { w with
        caches := Dict.store w.caches cid (CacheState.empty K),
        trackers := trackers2,
        refs := cs.cache.foldl
          (fun refs kv => Dict.store refs kv.2 none) w.refs } := by
  unfold clearAll at h
  split at h
  · cases h
  next cs hcs =>
    split at h
    · cases h
    next trackers2 hfold =>
      cases h
      exact ⟨cs, trackers2, hcs, hfold, rfl⟩

/-- A full clear of one cache never touches the state of another. -/
theorem clearAll_fetch_caches_ne {K V : Type} [DecidableEq K]
    (w w' : World K V) (cid cid2 : Nat) (hne : cid2 ≠ cid)
    (h : clearAll w cid = Except.ok w') :
    Dict.fetch w'.caches cid2 = Dict.fetch w.caches cid2 := by
  obtain ⟨cs, trackers2, hcs, hfold, rfl⟩ := clearAll_shape w w' cid h
  exact Dict.fetch_store_ne _ _ _ _ hne

theorem clearAll_refRead_mono {K V : Type} [DecidableEq K]
    (w w' : World K V) (cid : Nat) (h : clearAll w cid = Except.ok w') :
    ∀ r v, refRead w' r = some v → refRead w r = some v := by
  obtain ⟨cs, trackers2, hcs, hfold, rfl⟩ := clearAll_shape w w' cid h
  intro r v hv
  exact clearRefsFold_mono _ _ _ _ hv

theorem clearAll_nextRef {K V : Type} [DecidableEq K]
    (w w' : World K V) (cid : Nat) (h : clearAll w cid = Except.ok w') :
    w'.nextRef = w.nextRef := by
  obtain ⟨cs, trackers2, hcs, hfold, rfl⟩ := clearAll_shape w w' cid h
  rfl

theorem clearDepFold_caches_ne {K V : Type} [DecidableEq K]
    (w w' : World K V) (cid : Nat) (l : List Nat) (cid2 : Nat)
    (hne : cid2 ≠ cid)
    (h : foldE (fun w d => clearDep w cid d) w l = Except.ok w') :
    Dict.fetch w'.caches cid2 = Dict.fetch w.caches cid2 := by
  induction l generalizing w with
  | nil => rw [foldE_nil] at h; cases h; rfl
  | cons d rest ih =>
    unfold foldE at h
    cases hs : clearDep w cid d with
    | error e => rw [hs] at h; cases h
    | ok w1 =>
      rw [hs] at h
      exact (ih w1 h).trans (clearDep_fetch_caches_ne w w1 cid d cid2 hne hs)

theorem clearDepFold_refRead_mono {K V : Type} [DecidableEq K]
    (w w' : World K V) (cid : Nat) (l : List Nat)
    (h : foldE (fun w d => clearDep w cid d) w l = Except.ok w') :
    ∀ r v, refRead w' r = some v → refRead w r = some v := by
  induction l generalizing w with
  | nil => rw [foldE_nil] at h; cases h; exact fun _ _ hh => hh
  | cons d rest ih =>
    unfold foldE at h
    cases hs : clearDep w cid d with
    | error e => rw [hs] at h; cases h
    | ok w1 =>
      rw [hs] at h
      exact fun r v hv =>
        clearDep_refRead_mono w w1 cid d hs r v (ih w1 h r v hv)

/-- `Cache.clear` (any arity) never touches another cache's state. -/
theorem clear_fetch_caches_ne {K V : Type} [DecidableEq K]
    (w w' : World K V) (cid : Nat) (deps : List Nat) (cid2 : Nat)
    (hne : cid2 ≠ cid) (h : Cache.clear w cid deps = Except.ok w') :
    Dict.fetch w'.caches cid2 = Dict.fetch w.caches cid2 := by
  unfold Cache.clear at h
  cases deps with
  | nil => exact clearAll_fetch_caches_ne w w' cid cid2 hne h
  | cons d rest => exact clearDepFold_caches_ne w w' cid (d :: rest) cid2 hne h

/-- `Cache.clear` (any arity) only clears cells. -/
theorem clear_refRead_mono {K V : Type} [DecidableEq K]
    (w w' : World K V) (cid : Nat) (deps : List Nat)
    (h : Cache.clear w cid deps = Except.ok w') :
    ∀ r v, refRead w' r = some v → refRead w r = some v := by
  unfold Cache.clear at h
  cases deps with
  | nil => exact clearAll_refRead_mono w w' cid h
  | cons d rest => exact clearDepFold_refRead_mono w w' cid (d :: rest) h


/-! ## Postconditions of `Cache.add` -/

/-- The dependency loop of `Cache.add` touches only the reverse index and
the trackers. -/
theorem addDepStep_cache_refs {K V : Type} [DecidableEq K] (cid : Nat)
    (key : K) (depIds : List Nat) (st st' : CST K V) (dep : Fn)
    (h : addDepStep cid key depIds st dep = Except.ok st') :
    st'.cs.cache = st.cs.cache ∧ st'.refs = st.refs := by
  unfold addDepStep at h
  repeat' split at h
  all_goals cases h
  all_goals exact ⟨rfl, rfl⟩

theorem addDepFold_cache_refs {K V : Type} [DecidableEq K] (cid : Nat)
    (key : K) (depIds : List Nat) (deps : List Fn) (st st' : CST K V)
    (h : foldE (addDepStep cid key depIds) st deps = Except.ok st') :
    st'.cs.cache = st.cs.cache ∧ st'.refs = st.refs := by
  induction deps generalizing st with
  | nil => rw [foldE_nil] at h; cases h; exact ⟨rfl, rfl⟩
  | cons dep rest ih =>
    unfold foldE at h
    cases hs : addDepStep cid key depIds st dep with
    | error e => rw [hs] at h; cases h
    | ok st1 =>
      rw [hs] at h
      obtain ⟨e1, e2⟩ := addDepStep_cache_refs cid key depIds st st1 dep hs
      obtain ⟨e3, e4⟩ := ih st1 h
      exact ⟨e3.trans e1, e4.trans e2⟩

/-- Anatomy of a successful insert. -/
theorem add_shape {K V : Type} [DecidableEq K] (w w' : World K V)
    (cid : Nat) (key : K) (v : V) (deps : List Fn) (rid : Nat)
    (h : Cache.add w cid key v deps = Except.ok (w', rid)) :
    ∃ cs st, Dict.fetch w.caches cid = some cs ∧
      Dict.fetch cs.cache key = none ∧
      rid = w.nextRef ∧
      foldE (addDepStep cid key (deps.map Fn.id))
        (CST.mk { cs with cache := Dict.store cs.cache key w.nextRef }
          w.trackers (Dict.store w.refs w.nextRef (some v))) deps
        = Except.ok st ∧
      w' = { w with
        caches := Dict.store w.caches cid st.cs,
        trackers := st.trackers,
        refs := st.refs,
        nextRef := w.nextRef + 1 } := by
  unfold Cache.add at h
  split at h
  · cases h
  next cs hcs =>
    split at h
    · cases h
    next hdup =>
      dsimp only at h
      split at h
      · cases h
      next st hfold =>
        cases h
        exact ⟨cs, st, hcs, hdup, rfl, hfold, rfl⟩

/-- After a successful insert the key is present, bound to the returned
handle, and the handle reads the inserted value. -/
theorem add_get {K V : Type} [DecidableEq K] (w w' : World K V)
    (cid : Nat) (key : K) (v : V) (deps : List Fn) (rid : Nat)
    (h : Cache.add w cid key v deps = Except.ok (w', rid)) :
    Cache.get w' cid key = some rid ∧ refRead w' rid = some v := by
  obtain ⟨cs, st, hcs, hdup, hrid, hfold, hw⟩ :=
    add_shape w w' cid key v deps rid h
  obtain ⟨hc, hr⟩ := addDepFold_cache_refs _ _ _ _ _ _ hfold
  subst hw
  subst hrid
  constructor
  · unfold Cache.get
    simp only [Dict.fetch_store_self]
    rw [hc]
    simp only [Dict.fetch_store_self]
  · unfold refRead
    simp only [hr]
    exact cellRead_store_self _ _ _

/-- The property "the reverse index records `key ↦ depIds` under `d`",
preserved and established by the dependency loop. -/
theorem addDepStep_records {K V : Type} [DecidableEq K] (cid : Nat)
    (key : K) (depIds : List Nat) (st st' : CST K V) (dep : Fn)
    (h : addDepStep cid key depIds st dep = Except.ok st') :
    ∃ inner, Dict.fetch st'.cs.depsMap dep.id = some inner ∧
      Dict.fetch inner key = some depIds := by
  unfold addDepStep at h
  split at h
  next inner hin =>
    split at h
    · cases h
      refine ⟨Dict.store inner key depIds, ?_, ?_⟩
      · simp [Dict.fetch_store_self]
      · simp [Dict.fetch_store_self]
    · cases h
  next hin =>
    cases h
    refine ⟨[(key, depIds)], ?_, ?_⟩
    · simp [Dict.fetch_store_self]
    · simp

theorem addDepStep_preserves_record {K V : Type} [DecidableEq K]
    (cid : Nat) (key : K) (depIds : List Nat) (st st' : CST K V) (dep : Fn)
    (d : Nat)
    (h : addDepStep cid key depIds st dep = Except.ok st')
    (hp : ∃ inner, Dict.fetch st.cs.depsMap d = some inner ∧
      Dict.fetch inner key = some depIds) :
    ∃ inner, Dict.fetch st'.cs.depsMap d = some inner ∧
      Dict.fetch inner key = some depIds := by
  by_cases hd : d = dep.id
  · subst hd
    exact addDepStep_records cid key depIds st st' dep h
  · obtain ⟨inner, h1, h2⟩ := hp
    unfold addDepStep at h
    split at h
    next inner2 hin =>
      split at h
      · cases h
        refine ⟨inner, ?_, h2⟩
        simpa [Dict.fetch_store_ne _ _ _ _ hd] using h1
      · cases h
    next hin =>
      cases h
      refine ⟨inner, ?_, h2⟩
      simpa [Dict.fetch_store_ne _ _ _ _ hd] using h1

theorem addDepFold_preserves_record {K V : Type} [DecidableEq K]
    (cid : Nat) (key : K) (depIds : List Nat) (deps : List Fn)
    (st st' : CST K V) (d : Nat)
    (h : foldE (addDepStep cid key depIds) st deps = Except.ok st')
    (hp : ∃ inner, Dict.fetch st.cs.depsMap d = some inner ∧
      Dict.fetch inner key = some depIds) :
    ∃ inner, Dict.fetch st'.cs.depsMap d = some inner ∧
      Dict.fetch inner key = some depIds := by
  induction deps generalizing st with
  | nil => rw [foldE_nil] at h; cases h; exact hp
  | cons dep rest ih =>
    unfold foldE at h
    cases hs : addDepStep cid key depIds st dep with
    | error e => rw [hs] at h; cases h
    | ok st1 =>
      rw [hs] at h
      exact ih st1 h
        (addDepStep_preserves_record cid key depIds st st1 dep d hs hp)

/-- After the dependency loop, every declared dependency has a reverse
entry mapping the inserted key to the full dependency-id tuple. -/
theorem addDepFold_records {K V : Type} [DecidableEq K] (cid : Nat)
    (key : K) (depIds : List Nat) (deps : List Fn) (st st' : CST K V)
    (d : Fn) (hd : d ∈ deps)
    (h : foldE (addDepStep cid key depIds) st deps = Except.ok st') :
    ∃ inner, Dict.fetch st'.cs.depsMap d.id = some inner ∧
      Dict.fetch inner key = some depIds := by
  induction deps generalizing st with
  | nil => simp at hd
  | cons dep rest ih =>
    unfold foldE at h
    cases hs : addDepStep cid key depIds st dep with
    | error e => rw [hs] at h; cases h
    | ok st1 =>
      rw [hs] at h
      rcases List.mem_cons.mp hd with he | hd2
      · subst he
        exact addDepFold_preserves_record cid key depIds rest st1 st' d.id h
          (addDepStep_records cid key depIds st st1 d hs)
      · exact ih st1 hd2 h


/-! ## Claim C1 -/

/-- C1: for every key `k` inserted into a `Cache` with a non-empty
dependency list, clearing any single dependency `d` of that list removes
`k` from the cache (a later lookup returns the absent default `none`) and
sets the key's `CacheRef` cell to the empty sentinel, so every holder of
the handle `rid` subsequently reads empty. -/
theorem C1_clear_dep_removes_key {K V : Type} [DecidableEq K]
    (w w1 w2 : World K V) (cid : Nat) (k : K) (v : V) (deps : List Fn)
    (d : Fn) (rid : Nat) (cs : CacheState K)
    (hcs : Dict.fetch w.caches cid = some cs)
    (hnd : Dict.NodupKeys cs.cache)
    (hadd : Cache.add w cid k v deps = Except.ok (w1, rid))
    (hd : d ∈ deps)
    (hclear : Cache.clear w1 cid [d.id] = Except.ok w2) :
    Cache.get w2 cid k = none ∧ refRead w2 rid = none := by
  rw [clear_one] at hclear
  obtain ⟨cs0, st, hcs0, hdup, hrid, hfold, hw1⟩ :=
    add_shape w w1 cid k v deps rid hadd
  rw [hcs] at hcs0
  cases hcs0
  obtain ⟨hc, hr⟩ := addDepFold_cache_refs _ _ _ _ _ _ hfold
  obtain ⟨inner, hin, hkin⟩ :=
    addDepFold_records cid k (deps.map Fn.id) deps _ st d hd hfold
  have hnd1 : Dict.NodupKeys st.cs.cache := by
    rw [hc]
    exact Dict.nodupKeys_store _ _ _ hnd
  have hget : Dict.fetch st.cs.cache k = some w.nextRef := by
    rw [hc]
    exact Dict.fetch_store_self _ _ _
  have hcs1 : Dict.fetch w1.caches cid = some st.cs := by
    rw [hw1]
    exact Dict.fetch_store_self _ _ _
  subst hrid
  exact clearDep_clears w1 w2 cid d.id st.cs inner k (deps.map Fn.id)
    w.nextRef hcs1 hnd1 hin (Dict.mem_of_fetch _ _ _ hkin) hget hclear

/-- Witness for C1 at a concrete input: one cache, key 7 inserted with
dependencies `[sampleFnB, sampleFnA]`, then `clear` on `sampleFnA`'s id. -/
theorem C1_witness :
    Cache.get (exWorld (Cache.clear
        (exAddW (Cache.add sampleW0 0 7 99 [sampleFnB, sampleFnA]) sampleW0)
        0 [1]) sampleW0) 0 7 = none ∧
    refRead (exWorld (Cache.clear
        (exAddW (Cache.add sampleW0 0 7 99 [sampleFnB, sampleFnA]) sampleW0)
        0 [1]) sampleW0) 0 = none :=
  C1_clear_dep_removes_key sampleW0
    (exAddW (Cache.add sampleW0 0 7 99 [sampleFnB, sampleFnA]) sampleW0)
    (exWorld (Cache.clear
      (exAddW (Cache.add sampleW0 0 7 99 [sampleFnB, sampleFnA]) sampleW0)
      0 [1]) sampleW0)
    0 7 99 [sampleFnB, sampleFnA] sampleFnA 0 (CacheState.empty Nat)
    rfl (by decide) rfl (by decide) rfl

/-! ## Claim C5 -/

/-- C5: inserting a key that is already present fails with the
duplicate-key `CacheException` before any state is created or modified
(the operation produces only the error, leaving the cache, its reverse
index and the trackers exactly as they were). -/
theorem C5_duplicate_insert_rejected {K V : Type} [DecidableEq K]
    (w : World K V) (cid : Nat) (k : K) (v : V) (deps : List Fn)
    (cs : CacheState K) (r : Nat)
    (hcs : Dict.fetch w.caches cid = some cs)
    (hk : Dict.fetch cs.cache k = some r) :
    Cache.add w cid k v deps =
      Except.error (PyErr.cacheException "Duplicate key") := by
  unfold Cache.add
  simp only [hcs, hk]

/-- Witness for C5 at a concrete input: inserting key 7 twice. -/
theorem C5_witness :
    Cache.add (exAddW (Cache.add sampleW0 0 7 99 [sampleFnA]) sampleW0)
      0 7 100 [] =
    Except.error (PyErr.cacheException "Duplicate key") :=
  C5_duplicate_insert_rejected
    (exAddW (Cache.add sampleW0 0 7 99 [sampleFnA]) sampleW0)
    0 7 100 []
    ⟨[(7, 0)], [(1, [(7, [1])])], [1]⟩ 0 rfl rfl


/-! ## Claim C4 -/

/-- After any successful `assemble` call, the key is present and bound to
the returned handle, and the handle reads the returned value. -/
theorem assemble_post (w w1 : World AKey AVal) (cid : Nat) (form : Form)
    (bcs : List BCd) (fcp sp : Params) (rm : Option Form) (rid : Nat)
    (b : AVal)
    (h : AssemblyCache.assemble w cid form bcs fcp sp rm
      = Except.ok (w1, rid, b)) :
    Cache.get w1 cid (assemble_key form bcs
      (assemble_arguments form.arguments.length fcp sp)) = some rid ∧
    refRead w1 rid = some b := by
  unfold AssemblyCache.assemble at h
  dsimp only at h
  cases hget : Cache.get w cid (assemble_key form bcs
      (assemble_arguments form.arguments.length fcp sp)) with
  | some rid0 =>
    simp only [hget] at h
    cases hread : refRead w rid0 with
    | some b0 =>
      simp only [hread] at h
      cases h
      exact ⟨hget, hread⟩
    | none =>
      simp only [hread] at h
      split at h
      · cases h
      next b1 hval =>
        split at h
        · cases h
        next wr hadd =>
          cases h
          exact add_get w _ cid _ _ _ _ hadd
  | none =>
    simp only [hget] at h
    split at h
    · cases h
    next b1 hval =>
      split at h
      · cases h
      next wr hadd =>
        cases h
        exact add_get w _ cid _ _ _ _ hadd

/-- C4: repeated `AssemblyCache.assemble` calls with the same form,
boundary conditions and parameters, before any invalidation, return the
identical cached value object and the same entry handle, with the world
unchanged — the assembly computation and insertion happen only on the
first call. -/
theorem C4_assemble_computes_once (w w1 : World AKey AVal) (cid : Nat)
    (form : Form) (bcs : List BCd) (fcp sp : Params) (rm : Option Form)
    (rid : Nat) (b : AVal)
    (h : AssemblyCache.assemble w cid form bcs fcp sp rm
      = Except.ok (w1, rid, b)) :
    AssemblyCache.assemble w1 cid form bcs fcp sp rm
      = Except.ok (w1, rid, b) := by
  obtain ⟨hget, hread⟩ := assemble_post w w1 cid form bcs fcp sp rm rid b h
  unfold AssemblyCache.assemble
  dsimp only
  simp only [hget, hread]

/-- Witness for C4 at a concrete input: assembling a rank-1 form twice. -/
theorem C4_witness :
    AssemblyCache.assemble
      (exAddW (Cache.add (⟨[(0, CacheState.empty AKey)], [], [], 0⟩ :
          World AKey AVal) 0
        (assemble_key ⟨[], [0], [sampleFnA]⟩ [] (assemble_arguments 1 0 0))
        (AVal.assembled ⟨[], [0], [sampleFnA]⟩ (assemble_arguments 1 0 0))
        [sampleFnA])
        (⟨[(0, CacheState.empty AKey)], [], [], 0⟩ : World AKey AVal))
      0 (⟨[], [0], [sampleFnA]⟩ : Form) [] 0 0 none
      = Except.ok
        (exAddW (Cache.add (⟨[(0, CacheState.empty AKey)], [], [], 0⟩ :
            World AKey AVal) 0
          (assemble_key ⟨[], [0], [sampleFnA]⟩ [] (assemble_arguments 1 0 0))
          (AVal.assembled ⟨[], [0], [sampleFnA]⟩ (assemble_arguments 1 0 0))
          [sampleFnA])
          (⟨[(0, CacheState.empty AKey)], [], [], 0⟩ : World AKey AVal),
        0,
        AVal.assembled ⟨[], [0], [sampleFnA]⟩ (assemble_arguments 1 0 0)) :=
  C4_assemble_computes_once
    (⟨[(0, CacheState.empty AKey)], [], [], 0⟩ : World AKey AVal) _
    0 ⟨[], [0], [sampleFnA]⟩ [] 0 0 none 0
    (AVal.assembled ⟨[], [0], [sampleFnA]⟩ (assemble_arguments 1 0 0))
    rfl


/-! ## Claim C6 -/

/-- The reverse-index consistency invariant of one cache: every
dependency id with reverse entries also holds a (weak) tracker reference.
`Cache.add` asserts exactly this. -/
def Consistent {K : Type} (cs : CacheState K) : Prop :=
  ∀ d, (Dict.fetch cs.depsMap d).isSome = true → d ∈ cs.depCaches

/-- The dependency loop of `Cache.add` cannot fail on a consistent cache,
and keeps it consistent. -/
theorem addDepStep_total {K V : Type} [DecidableEq K] (cid : Nat) (key : K)
    (depIds : List Nat) (st : CST K V) (dep : Fn)
    (hcons : Consistent st.cs) :
    ∃ st', addDepStep cid key depIds st dep = Except.ok st' ∧
      Consistent st'.cs := by
  cases hin : Dict.fetch st.cs.depsMap dep.id with
  | some inner =>
    have hdc : dep.id ∈ st.cs.depCaches := hcons dep.id (by simp [hin])
    refine ⟨{ st with
      cs := { st.cs with
        depsMap := Dict.store st.cs.depsMap dep.id
          (Dict.store inner key depIds) },
      trackers := trackerRegister (ensureTracker st.trackers dep) dep.id
        cid }, ?_, ?_⟩
    · unfold addDepStep
      simp only [hin, if_pos hdc]
    · intro d hd
      dsimp only at hd ⊢
      by_cases hdd : d = dep.id
      · subst hdd
        exact hdc
      · rw [Dict.fetch_store_ne _ _ _ _ hdd] at hd
        exact hcons d hd
  | none =>
    refine ⟨{ st with
      cs := { st.cs with
        depsMap := Dict.store st.cs.depsMap dep.id [(key, depIds)],
        depCaches :=
          if dep.id ∈ st.cs.depCaches then st.cs.depCaches
          else st.cs.depCaches ++ [dep.id] },
      trackers := trackerRegister (ensureTracker st.trackers dep) dep.id
        cid }, ?_, ?_⟩
    · unfold addDepStep
      simp only [hin]
    · intro d hd
      dsimp only at hd ⊢
      by_cases hdd : d = dep.id
      · subst hdd
        by_cases hmem : dep.id ∈ st.cs.depCaches
        · rw [if_pos hmem]
          exact hmem
        · rw [if_neg hmem]
          exact List.mem_append_right _ (List.mem_singleton.mpr rfl)
      · rw [Dict.fetch_store_ne _ _ _ _ hdd] at hd
        have hmem := hcons d hd
        by_cases hmem2 : dep.id ∈ st.cs.depCaches
        · rw [if_pos hmem2]
          exact hmem
        · rw [if_neg hmem2]
          exact List.mem_append_left _ hmem

theorem addDepFold_total {K V : Type} [DecidableEq K] (cid : Nat) (key : K)
    (depIds : List Nat) (deps : List Fn) (st : CST K V)
    (hcons : Consistent st.cs) :
    ∃ st', foldE (addDepStep cid key depIds) st deps = Except.ok st' ∧
      Consistent st'.cs := by
  induction deps generalizing st with
  | nil => exact ⟨st, rfl, hcons⟩
  | cons dep rest ih =>
    obtain ⟨st1, hs, hcons1⟩ := addDepStep_total cid key depIds st dep hcons
    obtain ⟨st', hfold, hcons'⟩ := ih st1 hcons1
    exact ⟨st', by rw [foldE_cons_ok _ _ _ _ _ hs]; exact hfold, hcons'⟩

/-- `Cache.add` succeeds whenever the key is absent and the reverse index
is consistent. -/
theorem add_ok_of_consistent {K V : Type} [DecidableEq K] (w : World K V)
    (cid : Nat) (key : K) (v : V) (deps : List Fn) (cs : CacheState K)
    (hcs : Dict.fetch w.caches cid = some cs)
    (hget : Dict.fetch cs.cache key = none)
    (hcons : Consistent cs) :
    ∃ w' , Cache.add w cid key v deps = Except.ok (w', w.nextRef) := by
  unfold Cache.add
  simp only [hcs, hget]
  obtain ⟨st, hfold, _⟩ := addDepFold_total cid key (deps.map Fn.id) deps
    (CST.mk { cs with cache := Dict.store cs.cache key w.nextRef }
      w.trackers (Dict.store w.refs w.nextRef (some v)))
    (by exact hcons)
  refine ⟨{ w with
    caches := Dict.store w.caches cid st.cs,
    trackers := st.trackers,
    refs := st.refs,
    nextRef := w.nextRef + 1 }, ?_⟩
  dsimp only
  simp only [hfold]


theorem get_eq {K V : Type} [DecidableEq K] (w : World K V) (cid : Nat)
    (key : K) (cs : CacheState K)
    (hcs : Dict.fetch w.caches cid = some cs) :
    Cache.get w cid key = Dict.fetch cs.cache key := by
  unfold Cache.get
  rw [hcs]

/-- On a hit with a live cell, `assemble` returns the stored handle and
value with the world untouched. -/
theorem assemble_hit_reduce (w : World AKey AVal) (cid : Nat) (form : Form)
    (bcs : List BCd) (fcp sp : Params) (rm : Option Form)
    (cs : CacheState AKey) (rid : Nat) (b : AVal)
    (hcs : Dict.fetch w.caches cid = some cs)
    (hget : Dict.fetch cs.cache (assemble_key form bcs
      (assemble_arguments form.arguments.length fcp sp)) = some rid)
    (hread : refRead w rid = some b) :
    AssemblyCache.assemble w cid form bcs fcp sp rm
      = Except.ok (w, rid, b) := by
  unfold AssemblyCache.assemble
  dsimp only
  rw [get_eq w cid _ cs hcs]
  simp only [hget, hread]

/-- On a miss, `assemble` reduces to the rank dispatch followed by the
insert. -/
theorem assemble_miss_reduce (w : World AKey AVal) (cid : Nat) (form : Form)
    (bcs : List BCd) (fcp sp : Params) (rm : Option Form)
    (cs : CacheState AKey)
    (hcs : Dict.fetch w.caches cid = some cs)
    (hget : Dict.fetch cs.cache (assemble_key form bcs
      (assemble_arguments form.arguments.length fcp sp)) = none) :
    AssemblyCache.assemble w cid form bcs fcp sp rm =
      match assembleValue form.arguments.length
        (replaceMapForm rm form) bcs
        (assemble_arguments form.arguments.length fcp sp) with
      | Except.error e => Except.error e
      | Except.ok b =>
        match Cache.add w cid (assemble_key form bcs
            (assemble_arguments form.arguments.length fcp sp)) b
            ((form_dependencies form).map Prod.snd) with
        | Except.error e => Except.error e
        | Except.ok wr => Except.ok (wr.1, wr.2, b) := by
  unfold AssemblyCache.assemble
  dsimp only
  rw [get_eq w cid _ cs hcs]
  simp only [hget]

theorem assembleValue_zero_bcs (aform : Form) (bcs : List BCd) (kw : AKw)
    (hbcs : bcs ≠ []) :
    assembleValue 0 aform bcs kw = Except.error (PyErr.cacheException
      "Unexpected boundary conditions for rank 0 form") := by
  unfold assembleValue
  have : bcs.length > 0 := List.length_pos.mpr hbcs
  simp [this]

theorem assembleValue_zero (aform : Form) (kw : AKw) :
    assembleValue 0 aform [] kw
      = Except.ok (AVal.assembled aform kw) := rfl

theorem assembleValue_one (aform : Form) (bcs : List BCd) (kw : AKw) :
    assembleValue 1 aform bcs kw = Except.ok
      (bcs.foldl (fun b bc => AVal.bcApplied bc.id b)
        (AVal.assembled aform kw)) := rfl

theorem assembleValue_two (aform : Form) (bcs : List BCd) (kw : AKw) :
    assembleValue 2 aform bcs kw = Except.ok
      (AVal.assembledMatrix aform (bcs.map BCd.id) kw) := rfl

theorem assembleValue_big (rank : Nat) (aform : Form) (bcs : List BCd)
    (kw : AKw) (h : 2 < rank) :
    assembleValue rank aform bcs kw = Except.error (PyErr.cacheException
      ("Unexpected form rank " ++ toString rank)) := by
  unfold assembleValue
  have h0 : rank ≠ 0 := by omega
  have h1 : rank ≠ 1 := by omega
  have h2 : rank ≠ 2 := by omega
  simp [h0, h1, h2]


/-- C6: `AssemblyCache.assemble` raises if and only if, on a cache miss,
the form has rank 0 with boundary conditions supplied (the
invalid-argument `CacheException`) or a rank outside `{0, 1, 2}` (the
unsupported-rank `CacheException`); on a rank-1 miss it assembles a vector
and applies the boundary conditions in the given order; and a call that
hits a live cached entry never raises, regardless of rank.  The two
hypotheses `hlive` and `hcons` are invariants of reachable worlds (no
stored key reads empty; the reverse index is consistent). -/
theorem C6_assemble_error_classification (w : World AKey AVal) (cid : Nat)
    (form : Form) (bcs : List BCd) (fcp sp : Params) (rm : Option Form)
    (cs : CacheState AKey)
    (hcs : Dict.fetch w.caches cid = some cs)
    (hlive : ∀ rid, Dict.fetch cs.cache (assemble_key form bcs
      (assemble_arguments form.arguments.length fcp sp)) = some rid →
      refRead w rid ≠ none)
    (hcons : Consistent cs) :
    ((∃ e, AssemblyCache.assemble w cid form bcs fcp sp rm
        = Except.error e) ↔
      (Dict.fetch cs.cache (assemble_key form bcs
        (assemble_arguments form.arguments.length fcp sp)) = none ∧
       ((form.arguments.length = 0 ∧ bcs ≠ []) ∨
        2 < form.arguments.length))) ∧
    (Dict.fetch cs.cache (assemble_key form bcs
        (assemble_arguments form.arguments.length fcp sp)) = none →
      form.arguments.length = 0 → bcs ≠ [] →
      AssemblyCache.assemble w cid form bcs fcp sp rm = Except.error
        (PyErr.cacheException
          "Unexpected boundary conditions for rank 0 form")) ∧
    (Dict.fetch cs.cache (assemble_key form bcs
        (assemble_arguments form.arguments.length fcp sp)) = none →
      2 < form.arguments.length →
      AssemblyCache.assemble w cid form bcs fcp sp rm = Except.error
        (PyErr.cacheException
          ("Unexpected form rank " ++ toString form.arguments.length))) ∧
    (Dict.fetch cs.cache (assemble_key form bcs
        (assemble_arguments form.arguments.length fcp sp)) = none →
      form.arguments.length = 1 →
      ∃ w1 rid, AssemblyCache.assemble w cid form bcs fcp sp rm
        = Except.ok (w1, rid,
          bcs.foldl (fun b bc => AVal.bcApplied bc.id b)
            (AVal.assembled (replaceMapForm rm form)
              (assemble_arguments form.arguments.length fcp sp)))) ∧
    (∀ rid, Dict.fetch cs.cache (assemble_key form bcs
        (assemble_arguments form.arguments.length fcp sp)) = some rid →
      ∃ b, refRead w rid = some b ∧
        AssemblyCache.assemble w cid form bcs fcp sp rm
          = Except.ok (w, rid, b)) := by
  cases hget : Dict.fetch cs.cache (assemble_key form bcs
      (assemble_arguments form.arguments.length fcp sp)) with
  | some rid =>
    obtain ⟨b, hb⟩ := Option.ne_none_iff_exists'.mp (hlive rid hget)
    have hok := assemble_hit_reduce w cid form bcs fcp sp rm cs rid b
      hcs hget hb
    refine ⟨?_, ?_, ?_, ?_, ?_⟩
    · constructor
      · rintro ⟨e, he⟩
        rw [hok] at he
        cases he
      · rintro ⟨h0, _⟩
        cases h0
    · intro h0
      cases h0
    · intro h0
      cases h0
    · intro h0
      cases h0
    · intro rid2 hrid2
      cases hrid2
      exact ⟨b, hb, hok⟩
  | none =>
    have hmiss := assemble_miss_reduce w cid form bcs fcp sp rm cs hcs hget
    have herr0 : form.arguments.length = 0 → bcs ≠ [] →
        AssemblyCache.assemble w cid form bcs fcp sp rm = Except.error
          (PyErr.cacheException
            "Unexpected boundary conditions for rank 0 form") := by
      intro h0 hbcs
      rw [hmiss]
      rw [h0, assembleValue_zero_bcs _ _ _ hbcs]
    have herrBig : 2 < form.arguments.length →
        AssemblyCache.assemble w cid form bcs fcp sp rm = Except.error
          (PyErr.cacheException
            ("Unexpected form rank " ++ toString form.arguments.length)) := by
      intro hbig
      rw [hmiss]
      rw [assembleValue_big _ _ _ _ hbig]
    have hok1 : form.arguments.length = 1 →
        ∃ w1 rid, AssemblyCache.assemble w cid form bcs fcp sp rm
          = Except.ok (w1, rid,
            bcs.foldl (fun b bc => AVal.bcApplied bc.id b)
              (AVal.assembled (replaceMapForm rm form)
                (assemble_arguments form.arguments.length fcp sp))) := by
      intro h1
      have hget1 := hget
      rw [h1] at hget1
      rw [hmiss]
      simp only [h1, assembleValue_one]
      obtain ⟨w2, hadd⟩ := add_ok_of_consistent w cid
        (assemble_key form bcs (assemble_arguments 1 fcp sp))
        (List.foldl (fun b bc => AVal.bcApplied bc.id b)
          (AVal.assembled (replaceMapForm rm form)
            (assemble_arguments 1 fcp sp)) bcs)
        ((form_dependencies form).map Prod.snd) cs hcs hget1 hcons
      rw [hadd]
      exact ⟨w2, w.nextRef, rfl⟩
    refine ⟨?_, fun _ => herr0, fun _ => herrBig, fun _ => hok1, ?_⟩
    · constructor
      · rintro ⟨e, he⟩
        refine ⟨rfl, ?_⟩
        by_cases h0 : form.arguments.length = 0
        · by_cases hbcs : bcs = []
          · exfalso
            have hget1 := hget
            rw [h0] at hget1
            rw [hmiss] at he
            subst hbcs
            simp only [h0, assembleValue_zero] at he
            obtain ⟨w2, hadd⟩ := add_ok_of_consistent w cid
              (assemble_key form [] (assemble_arguments 0 fcp sp))
              (AVal.assembled (replaceMapForm rm form)
                (assemble_arguments 0 fcp sp))
              ((form_dependencies form).map Prod.snd) cs hcs hget1 hcons
            simp only [hadd] at he
            cases he
          · exact Or.inl ⟨h0, hbcs⟩
        · by_cases h1 : form.arguments.length = 1
          · exfalso
            obtain ⟨w1, rid, hok⟩ := hok1 h1
            rw [hok] at he
            cases he
          · by_cases h2 : form.arguments.length = 2
            · exfalso
              have hget1 := hget
              rw [h2] at hget1
              rw [hmiss] at he
              simp only [h2, assembleValue_two] at he
              obtain ⟨w2, hadd⟩ := add_ok_of_consistent w cid
                (assemble_key form bcs (assemble_arguments 2 fcp sp))
                (AVal.assembledMatrix
                  (replaceMapForm rm form)
                  (bcs.map BCd.id)
                  (assemble_arguments 2 fcp sp))
                ((form_dependencies form).map Prod.snd) cs hcs hget1 hcons
              simp only [hadd] at he
              cases he
            · exact Or.inr (by omega)
      · rintro ⟨_, hcond⟩
        rcases hcond with ⟨h0, hbcs⟩ | hbig
        · exact ⟨_, herr0 h0 hbcs⟩
        · exact ⟨_, herrBig hbig⟩
    · intro rid2 hrid2
      cases hrid2


/-- Witness for C6 at a concrete input: a rank-0 form assembled with one
boundary condition on an empty assembly cache fails with the
invalid-argument error. -/
theorem C6_witness :
    AssemblyCache.assemble
      (⟨[(0, CacheState.empty AKey)], [], [], 0⟩ : World AKey AVal) 0
      (⟨[], [], [sampleFnA]⟩ : Form) [⟨5⟩] 0 0 none
    = Except.error (PyErr.cacheException
        "Unexpected boundary conditions for rank 0 form") :=
  (C6_assemble_error_classification
    (⟨[(0, CacheState.empty AKey)], [], [], 0⟩ : World AKey AVal) 0
    (⟨[], [], [sampleFnA]⟩ : Form) [⟨5⟩] 0 0 none
    (CacheState.empty AKey) rfl
    (fun _ h => nomatch h) (fun _ h => nomatch h)).2.1 rfl rfl
    (by decide)


/-! ## Claim C8 -/

/-- C8: `split_action` returns the sentinel pair (the empty form and the
original form unchanged) and never raises whenever the form is not rank 1,
does not depend on `x`, has a derivative still depending on `x`, fails the
symbolic separation (`ufl.system` raising), or yields a non-cacheable
bilinear part; only when all checks pass does it return the
`(bilinear part, remainder)` separation built from the separated system. -/
theorem C8_split_action_sentinel (ops : UflOps) (form : Form) (x : Fn) :
    ((form.arguments.length ≠ 1 ∨ x ∉ form.coefficients ∨
      x ∈ ops.derivCoeffs form x ∨ ops.system form x = none ∨
      (∃ l r, ops.system form x = some (l, r) ∧
        is_cachedForm l = false)) →
      split_action ops form x = (Form.emptyF, form)) ∧
    (∀ l r, form.arguments.length = 1 → x ∈ form.coefficients →
      x ∉ ops.derivCoeffs form x → ops.system form x = some (l, r) →
      is_cachedForm l = true →
      split_action ops form x = (form_simplify_sign l none, form_neg r)) := by
  constructor
  · intro hcond
    unfold split_action
    by_cases h1 : form.arguments.length ≠ 1
    · rw [if_pos h1]
    · rw [if_neg h1]
      by_cases h2 : x ∉ form.coefficients
      · rw [if_pos h2]
      · rw [if_neg h2]
        by_cases h3 : x ∈ ops.derivCoeffs form x
        · rw [if_pos h3]
        · rw [if_neg h3]
          cases hsys : ops.system form x with
          | none => rfl
          | some lr =>
            obtain ⟨l, r⟩ := lr
            rcases hcond with hc | hc | hc | hc | hc
            · exact absurd hc h1
            · exact absurd hc h2
            · exact absurd hc h3
            · rw [hsys] at hc
              cases hc
            · obtain ⟨l2, r2, hsys2, hcached⟩ := hc
              rw [hsys] at hsys2
              cases hsys2
              simp [hcached]
  · intro l r h1 h2 h3 hsys hcached
    unfold split_action
    rw [if_neg (by simp [h1]), if_neg (by simp [h2]), if_neg h3, hsys]
    simp [hcached]

/-- Witness for C8 at a concrete input: with oracles whose symbolic
separation fails, `split_action` on a rank-1 form depending on the field
returns the sentinel. -/
theorem C8_witness :
    split_action sampleOps (⟨[], [0], [sampleFnA]⟩ : Form) sampleFnA
      = (Form.emptyF, (⟨[], [0], [sampleFnA]⟩ : Form)) :=
  (C8_split_action_sentinel sampleOps ⟨[], [0], [sampleFnA]⟩
    sampleFnA).1 (Or.inr (Or.inr (Or.inr (Or.inl rfl))))

/-! ## Claim C10 -/

/-- C10: a `ReplacementFunction` is immutable at its public interface:
`update_state` always raises `CacheException`, `state()` is the constant
`-1`, and its identity, name and static/cached/checkpointed flags (and
tangent-linear depth) equal those of the original function at creation, so
a canonicalized placeholder can never trigger cache invalidation. -/
theorem C10_replacement_function_immutable (x : Fn) :
    (replaced_function x).update_state = Except.error
      (PyErr.cacheException "Cannot change a ReplacementFunction") ∧
    (replaced_function x).state = -1 ∧
    (replaced_function x).id = x.id ∧
    (replaced_function x).name = x.name ∧
    (replaced_function x).static = function_is_static x ∧
    (replaced_function x).cached = function_is_cached x ∧
    (replaced_function x).checkpointed = function_is_checkpointed x ∧
    (replaced_function x).tlmDepth = function_tlm_depth x :=
  ⟨rfl, rfl, rfl, rfl, rfl, rfl, rfl, rfl⟩


/-! ## Claims C2 and C7: scenario computations -/

theorem Dict.store_store_self {α β : Type} [DecidableEq α] (d : Dict α β)
    (k : α) (x y : β) :
    Dict.store (Dict.store d k x) k y = Dict.store d k y := by
  induction d with
  | nil => simp [Dict.store]
  | cons hd tl ih =>
    by_cases hh : hd.1 = k
    · simp [Dict.store, hh]
    · simp [Dict.store, hh, ih]

/-- Clearing a dependency with no reverse entries is a no-op. -/
theorem clearDep_noop {K V : Type} [DecidableEq K] (w : World K V)
    (cid depId : Nat) (cs : CacheState K)
    (hcs : Dict.fetch w.caches cid = some cs)
    (hdm : Dict.fetch cs.depsMap depId = none) :
    clearDep w cid depId = Except.ok w := by
  unfold clearDep
  simp only [hcs, hdm]

/-- Inserting a key with two distinct fresh dependencies into an empty
cache: the complete resulting state. -/
theorem add_two_deps {K V : Type} [DecidableEq K] (w : World K V)
    (cid : Nat) (k : K) (v : V) (a b : Fn)
    (hab : a.id ≠ b.id)
    (hcs : Dict.fetch w.caches cid = some (CacheState.empty K))
    (hta : Dict.fetch w.trackers a.id = none)
    (htb : Dict.fetch w.trackers b.id = none) :
    Cache.add w cid k v [a, b]
      = Except.ok (c2World1 w cid k v a b, w.nextRef) := by
  have hba : b.id ≠ a.id := Ne.symm hab
  unfold Cache.add c2World1
  simp only [hcs, CacheState.empty, Dict.fetch_nil, foldE, addDepStep,
    ensureTracker, trackerRegister, hta, htb, List.map_cons, List.map_nil,
    Dict.fetch_store_self, Dict.fetch_store_ne _ _ _ _ hba,
    Dict.fetch_store_ne _ _ _ _ hab,
    List.not_mem_nil, if_false, Dict.store_store_self, Dict.store,
    List.nil_append, List.cons_append, Dict.fetch_cons, List.mem_singleton,
    hab, hba]

/-- Selectively clearing dependency `a` from the state built by
`add_two_deps`: the key is removed, its cell cleared, both reverse
entries purged, and the cache deregistered from both trackers. -/
theorem clear_a_after_two {K V : Type} [DecidableEq K] (w : World K V)
    (cid : Nat) (k : K) (v : V) (a b : Fn) (hab : a.id ≠ b.id) :
    clearDep (c2World1 w cid k v a b) cid a.id
      = Except.ok (c2World2 w cid a b) := by
  have hba : b.id ≠ a.id := Ne.symm hab
  unfold clearDep clearDepItem clearDepInner trackerDeregister c2World1
    c2World2
  simp only [Dict.fetch_store_self, Dict.fetch_cons, Dict.fetch_nil,
    Dict.fetch_store_ne _ _ _ _ hab, Dict.fetch_store_ne _ _ _ _ hba,
    Dict.remove_cons, Dict.store_cons, foldE, hab, hba, if_false, if_pos rfl,
    if_true, List.mem_singleton, List.mem_cons, List.not_mem_nil, or_false,
    false_or, eq_self_iff_true, true_or, or_true, List.erase_cons_head,
    List.erase_cons_tail, Dict.store_store_self, beq_iff_eq, bne_iff_ne,
    reduceCtorEq, ne_eq, not_false_iff]

/-- Inserting a key with a single dependency whose tracker already exists
(and does not list this cache) into an empty cache. -/
theorem add_single_dep {K V : Type} [DecidableEq K] (w : World K V)
    (cid : Nat) (k : K) (v : V) (b : Fn) (tr : TrackerState)
    (hcs : Dict.fetch w.caches cid = some (CacheState.empty K))
    (htb : Dict.fetch w.trackers b.id = some tr)
    (hnotin : cid ∉ tr.caches) :
    Cache.add w cid k v [b] = Except.ok ({ w with
      caches := Dict.store w.caches cid
        ⟨[(k, w.nextRef)], [(b.id, [(k, [b.id])])], [b.id]⟩,
      trackers := Dict.store w.trackers b.id
        ⟨tr.caches ++ [cid], tr.snapshot⟩,
      refs := Dict.store w.refs w.nextRef (some v),
      nextRef := w.nextRef + 1 }, w.nextRef) := by
  unfold Cache.add
  simp only [hcs, CacheState.empty, Dict.fetch_nil, foldE, addDepStep,
    ensureTracker, trackerRegister, htb, List.map_cons, List.map_nil,
    Dict.fetch_store_self, List.not_mem_nil, if_false, hnotin,
    Dict.store_store_self, Dict.store, List.nil_append, List.cons_append,
    Dict.fetch_cons]

/-- C2: after inserting key `k` with dependencies `{a, b}` into an empty
cache and clearing `a`: the reverse link from `b` to `k` is purged (no
reverse entries remain at all), the cache is unregistered from `b`'s (and
`a`'s) tracker, `k` is gone and its cell reads empty; a key `k2` depending
only on `b` inserted afterwards lives in the cache, re-registers with
`b`'s tracker, and is not invalidated by a further clear of `a`; and
clearing both identities at once on the jointly dependent key clears it
exactly once, with no dangling reverse entries and no error. -/
theorem C2_reverse_index_exact {K V : Type} [DecidableEq K]
    (w : World K V) (cid : Nat) (k k2 : K) (v v2 : V) (a b : Fn)
    (hab : a.id ≠ b.id)
    (hcs : Dict.fetch w.caches cid = some (CacheState.empty K))
    (hta : Dict.fetch w.trackers a.id = none)
    (htb : Dict.fetch w.trackers b.id = none) :
    ∃ w1 w2 w3,
      Cache.add w cid k v [a, b] = Except.ok (w1, w.nextRef) ∧
      Cache.clear w1 cid [a.id] = Except.ok w2 ∧
      Cache.get w2 cid k = none ∧
      refRead w2 w.nextRef = none ∧
      (∃ cs2, Dict.fetch w2.caches cid = some cs2 ∧
        cs2.depsMap = [] ∧ cs2.depCaches = []) ∧
      (∃ trb, Dict.fetch w2.trackers b.id = some trb ∧ cid ∉ trb.caches) ∧
      (∃ tra, Dict.fetch w2.trackers a.id = some tra ∧ cid ∉ tra.caches) ∧
      Cache.add w2 cid k2 v2 [b] = Except.ok (w3, w2.nextRef) ∧
      Cache.get w3 cid k2 = some w2.nextRef ∧
      refRead w3 w2.nextRef = some v2 ∧
      (∃ trb3, Dict.fetch w3.trackers b.id = some trb3 ∧ cid ∈ trb3.caches) ∧
      Cache.clear w3 cid [a.id] = Except.ok w3 ∧
      Cache.get w3 cid k2 = some w2.nextRef ∧
      Cache.clear w1 cid [a.id, b.id] = Except.ok w2 := by
  have hba : b.id ≠ a.id := Ne.symm hab
  have hadd := add_two_deps w cid k v a b hab hcs hta htb
  have hclear := clear_a_after_two w cid k v a b hab
  refine ⟨c2World1 w cid k v a b, c2World2 w cid a b,
    c2World3 w cid k2 v2 a b, hadd,
    ?_, ?_, ?_, ?_, ?_, ?_, ?_, ?_, ?_, ?_, ?_, ?_, ?_⟩
  · rw [clear_one]
    exact hclear
  · unfold c2World2
    rw [get_eq _ _ _ _ (Dict.fetch_store_self _ _ _)]
    rfl
  · unfold c2World2 refRead
    rw [cellRead_store_self]
  · unfold c2World2
    exact ⟨_, Dict.fetch_store_self _ _ _, rfl, rfl⟩
  · unfold c2World2
    refine ⟨⟨[], (b.id, b.state)⟩, ?_, List.not_mem_nil cid⟩
    rw [Dict.fetch_store_ne _ _ _ _ hba, Dict.fetch_store_self]
  · unfold c2World2
    exact ⟨⟨[], (a.id, a.state)⟩, Dict.fetch_store_self _ _ _,
      List.not_mem_nil cid⟩
  · unfold c2World3
    exact add_single_dep _ cid k2 v2 b ⟨[], (b.id, b.state)⟩
      (by unfold c2World2; exact Dict.fetch_store_self _ _ _)
      (by unfold c2World2
          rw [Dict.fetch_store_ne _ _ _ _ hba, Dict.fetch_store_self])
      (List.not_mem_nil cid)
  · unfold c2World3
    rw [get_eq _ _ _ _ (Dict.fetch_store_self _ _ _)]
    simp
  · unfold c2World3 refRead
    rw [cellRead_store_self]
  · unfold c2World3
    refine ⟨⟨[] ++ [cid], (b.id, b.state)⟩, Dict.fetch_store_self _ _ _, ?_⟩
    simp
  · rw [clear_one]
    refine clearDep_noop _ cid a.id
      ⟨[(k2, (c2World2 w cid a b).nextRef)], [(b.id, [(k2, [b.id])])],
        [b.id]⟩ ?_ ?_
    · unfold c2World3
      exact Dict.fetch_store_self _ _ _
    · rw [Dict.fetch_cons]
      simp [hba]
  · unfold c2World3
    rw [get_eq _ _ _ _ (Dict.fetch_store_self _ _ _)]
    simp
  · show foldE _ _ _ = _
    rw [foldE_cons_ok _ _ _ _ _ hclear]
    rw [foldE_cons_ok _ _ _ _ _ (clearDep_noop _ cid b.id ⟨[], [], []⟩
      (by unfold c2World2; exact Dict.fetch_store_self _ _ _) rfl)]
    rfl


/-- Witness for C2 at a concrete input: keys 7 and 8, values 99 and 100,
dependencies `sampleFnA` (id 1) and `sampleFnB` (id 2). -/
theorem C2_witness :
    ∃ w1 w2 w3,
      Cache.add sampleW0 0 7 99 [sampleFnA, sampleFnB]
        = Except.ok (w1, sampleW0.nextRef) ∧
      Cache.clear w1 0 [sampleFnA.id] = Except.ok w2 ∧
      Cache.get w2 0 7 = none ∧
      refRead w2 sampleW0.nextRef = none ∧
      (∃ cs2, Dict.fetch w2.caches 0 = some cs2 ∧
        cs2.depsMap = [] ∧ cs2.depCaches = []) ∧
      (∃ trb, Dict.fetch w2.trackers sampleFnB.id = some trb ∧
        0 ∉ trb.caches) ∧
      (∃ tra, Dict.fetch w2.trackers sampleFnA.id = some tra ∧
        0 ∉ tra.caches) ∧
      Cache.add w2 0 8 100 [sampleFnB] = Except.ok (w3, w2.nextRef) ∧
      Cache.get w3 0 8 = some w2.nextRef ∧
      refRead w3 w2.nextRef = some 100 ∧
      (∃ trb3, Dict.fetch w3.trackers sampleFnB.id = some trb3 ∧
        0 ∈ trb3.caches) ∧
      Cache.clear w3 0 [sampleFnA.id] = Except.ok w3 ∧
      Cache.get w3 0 8 = some w2.nextRef ∧
      Cache.clear w1 0 [sampleFnA.id, sampleFnB.id] = Except.ok w2 :=
  C2_reverse_index_exact sampleW0 0 7 8 99 100 sampleFnA sampleFnB
    (by decide) rfl rfl rfl


/-- Inserting with the duplicated dependency list `[b, b]`: identity
registration is deduplicated (the tracker lists the cache once) and the
reverse entry records the duplicated tuple. -/
theorem add_dup_dep {K V : Type} [DecidableEq K] (w : World K V)
    (cid : Nat) (k : K) (v : V) (b : Fn)
    (hcs : Dict.fetch w.caches cid = some (CacheState.empty K))
    (htb : Dict.fetch w.trackers b.id = none) :
    Cache.add w cid k v [b, b]
      = Except.ok (c7World1 w cid k v b, w.nextRef) := by
  unfold Cache.add c7World1
  simp only [hcs, CacheState.empty, Dict.fetch_nil, foldE, addDepStep,
    ensureTracker, trackerRegister, htb, List.map_cons, List.map_nil,
    Dict.fetch_store_self, List.not_mem_nil, if_false,
    Dict.store_store_self, Dict.store, List.nil_append, List.cons_append,
    Dict.fetch_cons, List.mem_singleton, if_pos rfl, eq_self_iff_true,
    if_true]

/-- Clearing the duplicated dependency itself succeeds and leaves no
dangling reverse entries. -/
theorem clear_dup_dep {K V : Type} [DecidableEq K] (w : World K V)
    (cid : Nat) (k : K) (v : V) (b : Fn) :
    clearDep (c7World1 w cid k v b) cid b.id
      = Except.ok (c7World2 w cid b) := by
  unfold clearDep clearDepItem clearDepInner trackerDeregister c7World1
    c7World2
  simp only [Dict.fetch_store_self, Dict.fetch_cons, Dict.fetch_nil,
    Dict.remove_cons, Dict.store_cons, foldE, if_pos rfl, if_true, if_false,
    List.mem_singleton, List.mem_cons, List.not_mem_nil, or_false, false_or,
    eq_self_iff_true, true_or, or_true, List.erase_cons_head,
    Dict.store_store_self]

/-- Inserting with the dependency list `[b, b, a]`. -/
theorem add_dup_plus {K V : Type} [DecidableEq K] (w : World K V)
    (cid : Nat) (k : K) (v : V) (b a : Fn) (hab : a.id ≠ b.id)
    (hcs : Dict.fetch w.caches cid = some (CacheState.empty K))
    (hta : Dict.fetch w.trackers a.id = none)
    (htb : Dict.fetch w.trackers b.id = none) :
    Cache.add w cid k v [b, b, a]
      = Except.ok (c7World1x w cid k v b a, w.nextRef) := by
  have hba : b.id ≠ a.id := Ne.symm hab
  unfold Cache.add c7World1x
  simp only [hcs, CacheState.empty, Dict.fetch_nil, foldE, addDepStep,
    ensureTracker, trackerRegister, hta, htb, List.map_cons, List.map_nil,
    Dict.fetch_store_self, Dict.fetch_store_ne _ _ _ _ hba,
    Dict.fetch_store_ne _ _ _ _ hab, List.not_mem_nil, if_false,
    Dict.store_store_self, Dict.store, List.nil_append, List.cons_append,
    Dict.fetch_cons, List.mem_singleton, hab, hba, if_pos rfl,
    eq_self_iff_true, if_true]

/-- Clearing the other dependency `a` of a key whose recorded tuple
duplicates `b` raises `KeyError`: the second occurrence of `b` in the
tuple is processed after `b`'s reverse entry has already been deleted. -/
theorem clear_dup_other_fails {K V : Type} [DecidableEq K] (w : World K V)
    (cid : Nat) (k : K) (v : V) (b a : Fn) (hab : a.id ≠ b.id) :
    clearDep (c7World1x w cid k v b a) cid a.id
      = Except.error PyErr.keyError := by
  have hba : b.id ≠ a.id := Ne.symm hab
  unfold clearDep clearDepItem clearDepInner trackerDeregister c7World1x
  simp only [Dict.fetch_store_self, Dict.fetch_cons, Dict.fetch_nil,
    Dict.fetch_store_ne _ _ _ _ hab, Dict.fetch_store_ne _ _ _ _ hba,
    Dict.remove_cons, Dict.store_cons, foldE, hab, hba, if_false,
    if_pos rfl, if_true, List.mem_singleton, List.mem_cons,
    List.not_mem_nil, or_false, false_or, eq_self_iff_true, true_or,
    or_true, List.erase_cons_head, List.erase_cons_tail,
    Dict.store_store_self, beq_iff_eq, bne_iff_ne, reduceCtorEq, ne_eq,
    not_false_iff]

/-- C7 counterexample: the claim as stated is false on the code.  Insert
key 7 with the dependency list `[sampleFnB, sampleFnB, sampleFnA]`
(field 2 duplicated); the later selective clear naming the dependency
`sampleFnA` (id 1) of that key does not complete without error — it
raises `KeyError`. -/
theorem C7_counterexample :
    Cache.clear (exAddW (Cache.add sampleW0 0 7 99
        [sampleFnB, sampleFnB, sampleFnA]) sampleW0) 0 [1]
      = Except.error PyErr.keyError := rfl

/-- C7 (amended): for an insert whose dependency list repeats a single
field, identity registration is deduplicated (the tracker lists the cache
once) and a later selective clear naming the repeated dependency itself
completes without error and leaves no dangling reverse entries; but when
the dependency list repeats a field and also contains another distinct
field, a selective clear naming the other field fails with `KeyError`. -/
theorem C7_duplicate_deps_amended {K V : Type} [DecidableEq K]
    (w : World K V) (cid : Nat) (k : K) (v : V) (b a : Fn)
    (hab : a.id ≠ b.id)
    (hcs : Dict.fetch w.caches cid = some (CacheState.empty K))
    (hta : Dict.fetch w.trackers a.id = none)
    (htb : Dict.fetch w.trackers b.id = none) :
    (∃ w1 w2,
      Cache.add w cid k v [b, b] = Except.ok (w1, w.nextRef) ∧
      (∃ trb, Dict.fetch w1.trackers b.id = some trb ∧
        trb.caches = [cid]) ∧
      Cache.clear w1 cid [b.id] = Except.ok w2 ∧
      Cache.get w2 cid k = none ∧
      refRead w2 w.nextRef = none ∧
      (∃ cs2, Dict.fetch w2.caches cid = some cs2 ∧
        cs2.depsMap = [] ∧ cs2.depCaches = []) ∧
      (∃ trb2, Dict.fetch w2.trackers b.id = some trb2 ∧
        cid ∉ trb2.caches)) ∧
    (∃ w1x,
      Cache.add w cid k v [b, b, a] = Except.ok (w1x, w.nextRef) ∧
      Cache.clear w1x cid [a.id] = Except.error PyErr.keyError) := by
  constructor
  · refine ⟨c7World1 w cid k v b, c7World2 w cid b,
      add_dup_dep w cid k v b hcs htb, ?_, ?_, ?_, ?_, ?_, ?_⟩
    · unfold c7World1
      exact ⟨_, Dict.fetch_store_self _ _ _, rfl⟩
    · rw [clear_one]
      exact clear_dup_dep w cid k v b
    · unfold c7World2
      rw [get_eq _ _ _ _ (Dict.fetch_store_self _ _ _)]
      rfl
    · unfold c7World2 refRead
      rw [cellRead_store_self]
    · unfold c7World2
      exact ⟨_, Dict.fetch_store_self _ _ _, rfl, rfl⟩
    · unfold c7World2
      exact ⟨⟨[], (b.id, b.state)⟩, Dict.fetch_store_self _ _ _,
        List.not_mem_nil cid⟩
  · refine ⟨c7World1x w cid k v b a,
      add_dup_plus w cid k v b a hab hcs hta htb, ?_⟩
    rw [clear_one]
    exact clear_dup_other_fails w cid k v b a hab

/-- Witness for the amended C7 at a concrete input. -/
theorem C7_witness :
    (∃ w1 w2,
      Cache.add sampleW0 0 7 99 [sampleFnB, sampleFnB]
        = Except.ok (w1, sampleW0.nextRef) ∧
      (∃ trb, Dict.fetch w1.trackers sampleFnB.id = some trb ∧
        trb.caches = [0]) ∧
      Cache.clear w1 0 [sampleFnB.id] = Except.ok w2 ∧
      Cache.get w2 0 7 = none ∧
      refRead w2 sampleW0.nextRef = none ∧
      (∃ cs2, Dict.fetch w2.caches 0 = some cs2 ∧
        cs2.depsMap = [] ∧ cs2.depCaches = []) ∧
      (∃ trb2, Dict.fetch w2.trackers sampleFnB.id = some trb2 ∧
        0 ∉ trb2.caches)) ∧
    (∃ w1x,
      Cache.add sampleW0 0 7 99 [sampleFnB, sampleFnB, sampleFnA]
        = Except.ok (w1x, sampleW0.nextRef) ∧
      Cache.clear w1x 0 [sampleFnA.id] = Except.error PyErr.keyError) :=
  C7_duplicate_deps_amended sampleW0 0 7 99 sampleFnB sampleFnA
    (by decide) rfl rfl rfl


/-! ## Claim C3 -/

/-- Anatomy of one step of `FunctionCaches.clear`: a dead cache is
skipped, a live one is cleared with respect to the field and the
deregistration assert holds. -/
theorem trackerClearStep_shape {K V : Type} [DecidableEq K]
    (w w' : World K V) (fid cid : Nat)
    (h : trackerClearStep fid w cid = Except.ok w') :
    (Dict.fetch w.caches cid = none ∧ w' = w) ∨
    (∃ cs2, Dict.fetch w.caches cid = some cs2 ∧
      Cache.clear w cid [fid] = Except.ok w' ∧
      (∃ tr2, Dict.fetch w'.trackers fid = some tr2 ∧
        cid ∉ tr2.caches)) := by
  unfold trackerClearStep at h
  split at h
  next hnone =>
    cases h
    exact Or.inl ⟨hnone, rfl⟩
  next cs2 hsome =>
    split at h
    · cases h
    next w2 hclear =>
      split at h
      · cases h
      next tr2 htr2 =>
        split at h
        next hmem => cases h
        next hmem =>
          cases h
          exact Or.inr ⟨cs2, hsome, hclear, tr2, htr2, hmem⟩

/-- The loop of `FunctionCaches.clear` never touches a cache that is not
in the iterated list. -/
theorem trackerClearFold_caches_ne {K V : Type} [DecidableEq K]
    (w w' : World K V) (fid : Nat) (l : List Nat) (cid2 : Nat)
    (hnotin : cid2 ∉ l)
    (h : foldE (trackerClearStep fid) w l = Except.ok w') :
    Dict.fetch w'.caches cid2 = Dict.fetch w.caches cid2 := by
  induction l generalizing w with
  | nil => rw [foldE_nil] at h; cases h; rfl
  | cons c rest ih =>
    unfold foldE at h
    cases hs : trackerClearStep fid w c with
    | error e => rw [hs] at h; cases h
    | ok w1 =>
      rw [hs] at h
      have hne : cid2 ≠ c := fun he => hnotin (he ▸ List.mem_cons_self c rest)
      have h1 : Dict.fetch w1.caches cid2 = Dict.fetch w.caches cid2 := by
        rcases trackerClearStep_shape w w1 fid c hs with ⟨_, rfl⟩ |
          ⟨cs2, _, hclear, _⟩
        · rfl
        · exact clear_fetch_caches_ne w w1 c [fid] cid2 hne hclear
      exact (ih w1 (fun hm => hnotin (List.mem_cons_of_mem _ hm)) h).trans h1

/-- The loop of `FunctionCaches.clear` only clears cells. -/
theorem trackerClearFold_refs_mono {K V : Type} [DecidableEq K]
    (w w' : World K V) (fid : Nat) (l : List Nat)
    (h : foldE (trackerClearStep fid) w l = Except.ok w') :
    ∀ r v, refRead w' r = some v → refRead w r = some v := by
  induction l generalizing w with
  | nil => rw [foldE_nil] at h; cases h; exact fun _ _ hh => hh
  | cons c rest ih =>
    unfold foldE at h
    cases hs : trackerClearStep fid w c with
    | error e => rw [hs] at h; cases h
    | ok w1 =>
      rw [hs] at h
      intro r v hv
      have h1 := ih w1 h r v hv
      rcases trackerClearStep_shape w w1 fid c hs with ⟨_, rfl⟩ |
        ⟨cs2, _, hclear, _⟩
      · exact h1
      · exact clear_refRead_mono w w1 c [fid] hclear r v h1

/-- C3: for a field with a dependency tracker, a snapshot update with the
stored `(identity, state)` pair leaves the world (hence all dependent
cache entries) untouched; a snapshot update after the state has changed
succeeds only by invalidating every dependent cache entry of the field —
each registered cache loses each key recorded under the field and the
key's cell reads empty — and then stores the new snapshot, so that an
immediately repeated update is a no-op (the invalidation happens exactly
once). -/
theorem C3_snapshot_gating {K V : Type} [DecidableEq K]
    (w w2 : World K V) (fid : Nat) (x : Fn) (tr : TrackerState)
    (htr : Dict.fetch w.trackers fid = some tr) :
    ((x.id, x.state) = tr.snapshot → trackerUpdate w fid x = Except.ok w) ∧
    ((x.id, x.state) ≠ tr.snapshot → tr.caches.Nodup →
      trackerUpdate w fid x = Except.ok w2 →
      ((∀ cid cs inner k ids rid, cid ∈ tr.caches →
        Dict.fetch w.caches cid = some cs → Dict.NodupKeys cs.cache →
        Dict.fetch cs.depsMap fid = some inner →
        (k, ids) ∈ inner → Dict.fetch cs.cache k = some rid →
        Cache.get w2 cid k = none ∧ refRead w2 rid = none) ∧
      (∃ tr2, Dict.fetch w2.trackers fid = some tr2 ∧
        tr2.snapshot = (x.id, x.state)) ∧
      trackerUpdate w2 fid x = Except.ok w2)) := by
  constructor
  · intro heq
    unfold trackerUpdate
    simp only [htr, if_pos heq]
  · intro hne hnodup hupd
    unfold trackerUpdate at hupd
    simp only [htr, if_neg hne] at hupd
    cases hclear : trackerClear w fid with
    | error e => rw [hclear] at hupd; cases hupd
    | ok w1 =>
      simp only [hclear] at hupd
      cases htr2 : Dict.fetch w1.trackers fid with
      | none => rw [htr2] at hupd; cases hupd
      | some tr2 =>
        simp only [htr2] at hupd
        cases hupd
        have hfold : foldE (trackerClearStep fid) w tr.caches
            = Except.ok w1 := by
          unfold trackerClear at hclear
          simp only [htr] at hclear
          exact hclear
        refine ⟨?_, ?_, ?_⟩
        · intro cid cs inner k ids rid hcid hcs hnd hinner hkin hrid
          obtain ⟨l1, l2, hsplit⟩ := List.append_of_mem hcid
          rw [hsplit] at hfold
          have hnodup2 := hsplit ▸ hnodup
          obtain ⟨hn1, hn2, hdisj⟩ := List.nodup_append.mp hnodup2
          have hcidl1 : cid ∉ l1 := fun hm =>
            (hdisj hm) (List.mem_cons_self cid l2)
          have hcidl2 : cid ∉ l2 := (List.nodup_cons.mp hn2).1
          obtain ⟨wp, hpre, hrest⟩ := foldE_append_ok _ _ _ _ _ hfold
          unfold foldE at hrest
          cases hstep : trackerClearStep fid wp cid with
          | error e => rw [hstep] at hrest; cases hrest
          | ok wm =>
            rw [hstep] at hrest
            have hcswp : Dict.fetch wp.caches cid = some cs := by
              rw [trackerClearFold_caches_ne w wp fid l1 cid hcidl1 hpre]
              exact hcs
            rcases trackerClearStep_shape wp wm fid cid hstep with
              ⟨hnone, _⟩ | ⟨cs2, hsome, hclear2, _⟩
            · rw [hcswp] at hnone
              cases hnone
            · rw [hcswp] at hsome
              cases hsome
              rw [clear_one] at hclear2
              obtain ⟨hgone, hcell⟩ := clearDep_clears wp wm cid fid cs
                inner k ids rid hcswp hnd hinner hkin hrid hclear2
              have hcachesfix : Dict.fetch w1.caches cid
                  = Dict.fetch wm.caches cid :=
                trackerClearFold_caches_ne wm w1 fid l2 cid hcidl2 hrest
              constructor
              · show Cache.get _ cid k = none
                unfold Cache.get at hgone ⊢
                simp only
                rw [hcachesfix]
                exact hgone
              · show refRead _ rid = none
                cases hfin : refRead w1 rid with
                | none => exact hfin
                | some vv =>
                  have := trackerClearFold_refs_mono wm w1 fid l2 hrest
                    rid vv hfin
                  rw [hcell] at this
                  cases this
        · exact ⟨_, Dict.fetch_store_self _ _ _, rfl⟩
        · unfold trackerUpdate
          simp only [Dict.fetch_store_self, if_pos rfl, if_true,
            eq_self_iff_true]


/-- Witness for C3 at a concrete input: key 7 inserted with dependency
`sampleFnA` (id 1, state 0), then a snapshot update after the field's
state counter reached 3. -/
theorem C3_witness :
    (Cache.get (exWorld (trackerUpdate
        (exAddW (Cache.add sampleW0 0 7 99 [sampleFnA]) sampleW0) 1
        ⟨1, "a", 3, true, true, true, false, 0⟩) sampleW0) 0 7 = none ∧
     refRead (exWorld (trackerUpdate
        (exAddW (Cache.add sampleW0 0 7 99 [sampleFnA]) sampleW0) 1
        ⟨1, "a", 3, true, true, true, false, 0⟩) sampleW0) 0 = none) ∧
    (∃ tr2, Dict.fetch (exWorld (trackerUpdate
        (exAddW (Cache.add sampleW0 0 7 99 [sampleFnA]) sampleW0) 1
        ⟨1, "a", 3, true, true, true, false, 0⟩) sampleW0).trackers 1
        = some tr2 ∧ tr2.snapshot = (1, 3)) ∧
    trackerUpdate (exWorld (trackerUpdate
        (exAddW (Cache.add sampleW0 0 7 99 [sampleFnA]) sampleW0) 1
        ⟨1, "a", 3, true, true, true, false, 0⟩) sampleW0) 1
        ⟨1, "a", 3, true, true, true, false, 0⟩
      = Except.ok (exWorld (trackerUpdate
        (exAddW (Cache.add sampleW0 0 7 99 [sampleFnA]) sampleW0) 1
        ⟨1, "a", 3, true, true, true, false, 0⟩) sampleW0) := by
  have h := (C3_snapshot_gating
    (exAddW (Cache.add sampleW0 0 7 99 [sampleFnA]) sampleW0)
    (exWorld (trackerUpdate
      (exAddW (Cache.add sampleW0 0 7 99 [sampleFnA]) sampleW0) 1
      ⟨1, "a", 3, true, true, true, false, 0⟩) sampleW0)
    1 ⟨1, "a", 3, true, true, true, false, 0⟩ ⟨[0], (1, 0)⟩ rfl).2
    (by decide) (by decide) rfl
  exact ⟨h.1 0 ⟨[(7, 0)], [(1, [(7, [1])])], [1]⟩ [(7, [1])] 7 [1] 0
    (by decide) rfl (by decide) rfl (by decide) rfl, h.2.1, h.2.2⟩


/-! ## Claim C9: the invariant of reachable worlds -/

theorem fetch_store_of_fetch {α β : Type} [DecidableEq α] (d : Dict α β)
    (k : α) (v : β) (h : Dict.fetch d k = some v) (k' : α) :
    Dict.fetch (Dict.store d k v) k' = Dict.fetch d k' := by
  by_cases he : k' = k
  · subst he
    rw [Dict.fetch_store_self, h]
  · exact Dict.fetch_store_ne _ _ _ _ he

/-- `Inv` only observes the primary maps (through `fetch`), the ref store
and the allocator, so it transfers along agreement of those; a cache that
is new in `w'` may instead be empty. -/
theorem Inv_transfer {K V : Type} [DecidableEq K] (w w' : World K V)
    (hc : ∀ c cs', Dict.fetch w'.caches c = some cs' →
      cs'.cache = [] ∨
      ∃ cs, Dict.fetch w.caches c = some cs ∧ cs.cache = cs'.cache)
    (hr : w'.refs = w.refs) (hn : w'.nextRef = w.nextRef)
    (hinv : Inv w) : Inv w' := by
  refine ⟨?_, ?_, ?_, ?_⟩
  · intro cid cs k rid hcs hk
    rcases hc cid cs hcs with hnil | ⟨cs0, hcs0, he⟩
    · rw [hnil] at hk
      cases hk
    · rw [← he] at hk
      unfold refRead
      rw [hr]
      exact hinv.live cid cs0 k rid hcs0 hk
  · intro cid cs k rid cid2 cs2 k2 hcs hk hcs2 hk2
    rcases hc cid cs hcs with hnil | ⟨cs0, hcs0, he⟩
    · rw [hnil] at hk
      cases hk
    rcases hc cid2 cs2 hcs2 with hnil2 | ⟨cs20, hcs20, he2⟩
    · rw [hnil2] at hk2
      cases hk2
    rw [← he] at hk
    rw [← he2] at hk2
    exact hinv.inj cid cs0 k rid cid2 cs20 k2 hcs0 hk hcs20 hk2
  · intro cid cs k rid hcs hk
    rcases hc cid cs hcs with hnil | ⟨cs0, hcs0, he⟩
    · rw [hnil] at hk
      cases hk
    · rw [← he] at hk
      rw [hn]
      exact hinv.fresh cid cs0 k rid hcs0 hk
  · intro cid cs hcs
    rcases hc cid cs hcs with hnil | ⟨cs0, hcs0, he⟩
    · rw [hnil]
      exact List.nodup_nil
    · rw [← he]
      exact hinv.nodup cid cs0 hcs0

theorem Inv_empty {K V : Type} [DecidableEq K] : Inv (World.empty K V) := by
  refine ⟨?_, ?_, ?_, ?_⟩ <;> intro cid cs <;> intros <;>
    simp_all [World.empty]

theorem Inv_newCache {K V : Type} [DecidableEq K] (w : World K V)
    (cid : Nat) (hinv : Inv w) :
    Inv { w with
      caches := Dict.store w.caches cid (CacheState.empty K) } := by
  refine Inv_transfer w _ ?_ rfl rfl hinv
  intro c cs' hcs'
  by_cases he : c = cid
  · subst he
    rw [Dict.fetch_store_self] at hcs'
    cases hcs'
    exact Or.inl rfl
  · rw [Dict.fetch_store_ne _ _ _ _ he] at hcs'
    exact Or.inr ⟨cs', hcs', rfl⟩

theorem Inv_newTracker {K V : Type} [DecidableEq K] (w : World K V)
    (f : Fn) (hinv : Inv w) :
    Inv { w with
      trackers :=
        Dict.store w.trackers f.id (TrackerState.mk [] (f.id, f.state)) }
      := by
  refine Inv_transfer w _ ?_ rfl rfl hinv
  intro c cs' hcs'
  exact Or.inr ⟨cs', hcs', rfl⟩


/-- A successful insert preserves the cell invariant: the fresh cell is
live and distinct from all stored cells. -/
theorem Inv_add {K V : Type} [DecidableEq K] (w w' : World K V)
    (cid : Nat) (key : K) (v : V) (deps : List Fn) (rid : Nat)
    (hinv : Inv w) (h : Cache.add w cid key v deps = Except.ok (w', rid)) :
    Inv w' := by
  obtain ⟨cs, st, hcs, hget, hrid, hfold, hw⟩ :=
    add_shape w w' cid key v deps rid h
  obtain ⟨hcache2, hrefs2⟩ := addDepFold_cache_refs _ _ _ _ _ _ hfold
  subst hw
  have hold : ∀ c csx k r,
      Dict.fetch (Dict.store w.caches cid st.cs) c = some csx →
      Dict.fetch csx.cache k = some r →
      (c = cid ∧ k = key ∧ r = w.nextRef) ∨
      (∃ csy, Dict.fetch w.caches c = some csy ∧
        Dict.fetch csy.cache k = some r) := by
    intro c csx k r h1 h2
    by_cases hc : c = cid
    · subst hc
      rw [Dict.fetch_store_self] at h1
      cases h1
      rw [hcache2] at h2
      by_cases hk : k = key
      · subst hk
        rw [Dict.fetch_store_self] at h2
        cases h2
        exact Or.inl ⟨rfl, rfl, rfl⟩
      · rw [Dict.fetch_store_ne _ _ _ _ hk] at h2
        exact Or.inr ⟨cs, hcs, h2⟩
    · rw [Dict.fetch_store_ne _ _ _ _ hc] at h1
      exact Or.inr ⟨csx, h1, h2⟩
  refine ⟨?_, ?_, ?_, ?_⟩
  · intro c csx k r h1 h2
    show refRead _ r ≠ none
    unfold refRead
    simp only [hrefs2]
    rcases hold c csx k r h1 h2 with ⟨_, _, rfl⟩ | ⟨csy, hcsy, hk⟩
    · rw [cellRead_store_self]
      simp
    · have hlt := hinv.fresh c csy k r hcsy hk
      rw [cellRead_store_ne _ _ _ _ (by omega)]
      exact hinv.live c csy k r hcsy hk
  · intro c csx k r c2 csx2 k2 h1 h2 h12 h22
    rcases hold c csx k r h1 h2 with ⟨rfl, rfl, rfl⟩ | ⟨csy, hcsy, hk⟩
    · rcases hold c2 csx2 k2 _ h12 h22 with ⟨rfl, rfl, _⟩ |
        ⟨csy2, hcsy2, hk2⟩
      · exact ⟨rfl, rfl⟩
      · have := hinv.fresh c2 csy2 k2 _ hcsy2 hk2
        omega
    · rcases hold c2 csx2 k2 r h12 h22 with ⟨rfl, rfl, rfl⟩ |
        ⟨csy2, hcsy2, hk2⟩
      · have := hinv.fresh c csy k _ hcsy hk
        omega
      · exact hinv.inj c csy k r c2 csy2 k2 hcsy hk hcsy2 hk2
  · intro c csx k r h1 h2
    show r < w.nextRef + 1
    rcases hold c csx k r h1 h2 with ⟨_, _, rfl⟩ | ⟨csy, hcsy, hk⟩
    · omega
    · have := hinv.fresh c csy k r hcsy hk
      omega
  · intro c csx h1
    by_cases hc : c = cid
    · subst hc
      rw [Dict.fetch_store_self] at h1
      cases h1
      rw [hcache2]
      exact Dict.nodupKeys_store _ _ _ (hinv.nodup _ cs hcs)
    · rw [Dict.fetch_store_ne _ _ _ _ hc] at h1
      exact hinv.nodup c csx h1


/-- One removal step of the item loop preserves the cell invariant of the
working world. -/
theorem Inv_clearDepItem {K V : Type} [DecidableEq K] (w : World K V)
    (cid depId : Nat) (st st' : CST K V) (item : K × List Nat)
    (hinv : Inv (asmW w cid st))
    (h : clearDepItem cid depId st item = Except.ok st') :
    Inv (asmW w cid st') := by
  obtain ⟨rid, hrid, hc, hr⟩ := clearDepItem_shape cid depId st st' item h
  have hndst : Dict.NodupKeys st.cs.cache := by
    refine hinv.nodup cid st.cs ?_
    simp only [asmW]
    exact Dict.fetch_store_self _ _ _
  have hremEntry : Dict.fetch (asmW w cid st).caches cid = some st.cs := by
    simp only [asmW]
    exact Dict.fetch_store_self _ _ _
  have hold : ∀ c csx k r,
      Dict.fetch (asmW w cid st').caches c = some csx →
      Dict.fetch csx.cache k = some r →
      ∃ csy, Dict.fetch (asmW w cid st).caches c = some csy ∧
        Dict.fetch csy.cache k = some r ∧ (c = cid → k ≠ item.1) := by
    intro c csx k r h1 h2
    simp only [asmW] at h1
    by_cases hcc : c = cid
    · subst hcc
      rw [Dict.fetch_store_self] at h1
      cases h1
      rw [hc] at h2
      have hk1 : k ≠ item.1 := by
        intro he
        subst he
        rw [Dict.fetch_remove_self _ _ hndst] at h2
        cases h2
      refine ⟨st.cs, hremEntry, ?_, fun _ => hk1⟩
      exact Dict.fetch_remove_sub _ _ _ _ hndst h2
    · rw [Dict.fetch_store_ne _ _ _ _ hcc] at h1
      refine ⟨csx, ?_, h2, fun he => absurd he hcc⟩
      simp only [asmW]
      rw [Dict.fetch_store_ne _ _ _ _ hcc]
      exact h1
  refine ⟨?_, ?_, ?_, ?_⟩
  · intro c csx k r h1 h2
    obtain ⟨csy, hcsy, hk, hne⟩ := hold c csx k r h1 h2
    have hrne : r ≠ rid := by
      intro he
      subst he
      obtain ⟨he1, he2⟩ := hinv.inj c csy k r cid st.cs item.1
        hcsy hk hremEntry hrid
      exact hne he1 he2
    show refRead (asmW w cid st') r ≠ none
    simp only [asmW, refRead]
    rw [hr, cellRead_store_ne _ _ _ _ hrne]
    exact hinv.live c csy k r hcsy hk
  · intro c csx k r c2 csx2 k2 h1 h2 h12 h22
    obtain ⟨csy, hcsy, hk, _⟩ := hold c csx k r h1 h2
    obtain ⟨csy2, hcsy2, hk2, _⟩ := hold c2 csx2 k2 r h12 h22
    exact hinv.inj c csy k r c2 csy2 k2 hcsy hk hcsy2 hk2
  · intro c csx k r h1 h2
    obtain ⟨csy, hcsy, hk, _⟩ := hold c csx k r h1 h2
    exact hinv.fresh c csy k r hcsy hk
  · intro c csx h1
    simp only [asmW] at h1
    by_cases hcc : c = cid
    · subst hcc
      rw [Dict.fetch_store_self] at h1
      cases h1
      rw [hc]
      exact Dict.nodupKeys_remove _ _ hndst
    · rw [Dict.fetch_store_ne _ _ _ _ hcc] at h1
      refine hinv.nodup c csx ?_
      simp only [asmW]
      rw [Dict.fetch_store_ne _ _ _ _ hcc]
      exact h1

theorem Inv_clearDepItemFold {K V : Type} [DecidableEq K] (w : World K V)
    (cid depId : Nat) (items : List (K × List Nat)) (st st' : CST K V)
    (hinv : Inv (asmW w cid st))
    (h : foldE (clearDepItem cid depId) st items = Except.ok st') :
    Inv (asmW w cid st') := by
  induction items generalizing st with
  | nil => rw [foldE_nil] at h; cases h; exact hinv
  | cons item rest ih =>
    unfold foldE at h
    cases hs : clearDepItem cid depId st item with
    | error e => rw [hs] at h; cases h
    | ok st1 =>
      rw [hs] at h
      exact ih st1 (Inv_clearDepItem w cid depId st st1 item hinv hs) h

theorem Inv_clearDep {K V : Type} [DecidableEq K] (w w' : World K V)
    (cid depId : Nat) (hinv : Inv w)
    (h : clearDep w cid depId = Except.ok w') : Inv w' := by
  obtain ⟨cs, hcs, hcase⟩ := clearDep_shape w w' cid depId h
  rcases hcase with ⟨_, rfl⟩ |
    ⟨items, st, trackers2, hitems, hfold, _, _, _, rfl⟩
  · exact hinv
  · have hinv0 : Inv (asmW w cid (CST.mk cs w.trackers w.refs)) := by
      refine Inv_transfer w _ ?_ rfl rfl hinv
      intro c cs2 h1
      simp only [asmW] at h1
      by_cases hcc : c = cid
      · subst hcc
        rw [Dict.fetch_store_self] at h1
        cases h1
        exact Or.inr ⟨cs, hcs, rfl⟩
      · rw [Dict.fetch_store_ne _ _ _ _ hcc] at h1
        exact Or.inr ⟨cs2, h1, rfl⟩
    have hinv1 := Inv_clearDepItemFold w cid depId items _ st hinv0 hfold
    refine Inv_transfer (asmW w cid st) _ ?_ rfl rfl hinv1
    intro c cs2 h1
    by_cases hcc : c = cid
    · subst hcc
      rw [Dict.fetch_store_self] at h1
      cases h1
      refine Or.inr ⟨st.cs, ?_, rfl⟩
      simp only [asmW]
      exact Dict.fetch_store_self _ _ _
    · rw [Dict.fetch_store_ne _ _ _ _ hcc] at h1
      refine Or.inr ⟨cs2, ?_, rfl⟩
      simp only [asmW]
      rw [Dict.fetch_store_ne _ _ _ _ hcc]
      exact h1

/-- Cells not named by the cleared cache keep their value through the
ref-store rewrite of a full clear. -/
theorem clearRefsFold_ne {K V : Type} (l : List (K × Nat))
    (refs : Dict Nat (Option V)) (r : Nat) (hne : ∀ kv ∈ l, kv.2 ≠ r) :
    cellRead (l.foldl (fun refs kv => Dict.store refs kv.2 none) refs) r
      = cellRead refs r := by
  induction l generalizing refs with
  | nil => rfl
  | cons kv rest ih =>
    rw [List.foldl_cons]
    rw [ih _ (fun kv2 hm => hne kv2 (List.mem_cons_of_mem _ hm))]
    exact cellRead_store_ne _ _ _ _
      (fun he => hne kv (List.mem_cons_self kv rest) he.symm)

theorem Inv_clearAll {K V : Type} [DecidableEq K] (w w' : World K V)
    (cid : Nat) (hinv : Inv w) (h : clearAll w cid = Except.ok w') :
    Inv w' := by
  obtain ⟨cs, trackers2, hcs, _, rfl⟩ := clearAll_shape w w' cid h
  have hold : ∀ c csx k r,
      Dict.fetch (Dict.store w.caches cid (CacheState.empty K)) c
        = some csx →
      Dict.fetch csx.cache k = some r →
      c ≠ cid ∧ ∃ csy, Dict.fetch w.caches c = some csy ∧
        Dict.fetch csy.cache k = some r := by
    intro c csx k r h1 h2
    by_cases hcc : c = cid
    · subst hcc
      rw [Dict.fetch_store_self] at h1
      cases h1
      cases h2
    · rw [Dict.fetch_store_ne _ _ _ _ hcc] at h1
      exact ⟨hcc, csx, h1, h2⟩
  refine ⟨?_, ?_, ?_, ?_⟩
  · intro c csx k r h1 h2
    obtain ⟨hcc, csy, hcsy, hk⟩ := hold c csx k r h1 h2
    show refRead _ r ≠ none
    unfold refRead
    show cellRead (cs.cache.foldl
      (fun refs kv => Dict.store refs kv.2 none) w.refs) r ≠ none
    rw [clearRefsFold_ne]
    · exact hinv.live c csy k r hcsy hk
    · intro kv hm he
      have hfkv : Dict.fetch cs.cache kv.1 = some kv.2 :=
        Dict.fetch_of_mem _ _ _ (hinv.nodup cid cs hcs) (by
          cases kv
          exact hm)
      rw [he] at hfkv
      obtain ⟨he1, _⟩ := hinv.inj cid cs kv.1 r c csy k hcs hfkv hcsy hk
      exact hcc he1.symm
  · intro c csx k r c2 csx2 k2 h1 h2 h12 h22
    obtain ⟨_, csy, hcsy, hk⟩ := hold c csx k r h1 h2
    obtain ⟨_, csy2, hcsy2, hk2⟩ := hold c2 csx2 k2 r h12 h22
    exact hinv.inj c csy k r c2 csy2 k2 hcsy hk hcsy2 hk2
  · intro c csx k r h1 h2
    obtain ⟨_, csy, hcsy, hk⟩ := hold c csx k r h1 h2
    exact hinv.fresh c csy k r hcsy hk
  · intro c csx h1
    by_cases hcc : c = cid
    · subst hcc
      rw [Dict.fetch_store_self] at h1
      cases h1
      exact List.nodup_nil
    · rw [Dict.fetch_store_ne _ _ _ _ hcc] at h1
      exact hinv.nodup c csx h1

theorem Inv_clearDepFold {K V : Type} [DecidableEq K] (w w' : World K V)
    (cid : Nat) (l : List Nat) (hinv : Inv w)
    (h : foldE (fun w d => clearDep w cid d) w l = Except.ok w') :
    Inv w' := by
  induction l generalizing w with
  | nil => rw [foldE_nil] at h; cases h; exact hinv
  | cons d rest ih =>
    unfold foldE at h
    cases hs : clearDep w cid d with
    | error e => rw [hs] at h; cases h
    | ok w1 =>
      rw [hs] at h
      exact ih w1 (Inv_clearDep w w1 cid d hinv hs) h

theorem Inv_clear {K V : Type} [DecidableEq K] (w w' : World K V)
    (cid : Nat) (deps : List Nat) (hinv : Inv w)
    (h : Cache.clear w cid deps = Except.ok w') : Inv w' := by
  unfold Cache.clear at h
  cases deps with
  | nil => exact Inv_clearAll w w' cid hinv h
  | cons d rest => exact Inv_clearDepFold w w' cid (d :: rest) hinv h


theorem Inv_trackerClearStep {K V : Type} [DecidableEq K]
    (w w' : World K V) (fid cid : Nat) (hinv : Inv w)
    (h : trackerClearStep fid w cid = Except.ok w') : Inv w' := by
  rcases trackerClearStep_shape w w' fid cid h with ⟨_, rfl⟩ |
    ⟨cs2, _, hclear, _⟩
  · exact hinv
  · exact Inv_clear w w' cid [fid] hinv hclear

theorem Inv_trackerClear {K V : Type} [DecidableEq K] (w w' : World K V)
    (fid : Nat) (hinv : Inv w)
    (h : trackerClear w fid = Except.ok w') : Inv w' := by
  unfold trackerClear at h
  split at h
  · cases h
  next tr htr =>
    clear htr
    generalize tr.caches = l at h
    induction l generalizing w with
    | nil => rw [foldE_nil] at h; cases h; exact hinv
    | cons c rest ih =>
      unfold foldE at h
      cases hs : trackerClearStep fid w c with
      | error e => rw [hs] at h; cases h
      | ok w1 =>
        rw [hs] at h
        exact ih w1 (Inv_trackerClearStep w w1 fid c hinv hs) h

theorem Inv_trackerUpdate {K V : Type} [DecidableEq K] (w w' : World K V)
    (fid : Nat) (x : Fn) (hinv : Inv w)
    (h : trackerUpdate w fid x = Except.ok w') : Inv w' := by
  unfold trackerUpdate at h
  split at h
  · cases h
  next tr htr =>
    split at h
    · cases h
      exact hinv
    · cases hclear : trackerClear w fid with
      | error e => rw [hclear] at h; cases h
      | ok w1 =>
        simp only [hclear] at h
        cases htr2 : Dict.fetch w1.trackers fid with
        | none => rw [htr2] at h; cases h
        | some tr2 =>
          simp only [htr2] at h
          cases h
          have hinv1 := Inv_trackerClear w w1 fid hinv hclear
          refine Inv_transfer w1 _ ?_ rfl rfl hinv1
          intro c cs2 h1
          exact Or.inr ⟨cs2, h1, rfl⟩

/-- Every reachable world satisfies the cell invariant. -/
theorem reachable_inv {K V : Type} [DecidableEq K] (w : World K V)
    (h : Reachable w) : Inv w := by
  induction h with
  | init => exact Inv_empty
  | newCache w cid _ _ ih => exact Inv_newCache w cid ih
  | newTracker w f _ _ ih => exact Inv_newTracker w f ih
  | addOk w cid key v deps w2 rid _ hadd ih =>
    exact Inv_add w w2 cid key v deps rid ih hadd
  | clearOk w cid deps w2 _ hclear ih =>
    exact Inv_clear w w2 cid deps ih hclear
  | trackerClearOk w fid w2 _ hclear ih =>
    exact Inv_trackerClear w w2 fid ih hclear
  | trackerUpdateOk w fid x w2 _ hupd ih =>
    exact Inv_trackerUpdate w w2 fid x ih hupd

/-- C9: in any world reachable by the public insert/clear/update
operations, every key still present in a cache's primary mapping is bound
to a cell that reads a value (never the empty sentinel); consequently the
stale-entry branch of `AssemblyCache.assemble` — a stored handle whose
cell reads empty, which would recompute and then die on the duplicate-key
error in `Cache.add` — can never be taken. -/
theorem C9_present_keys_live {K V : Type} [DecidableEq K] (w : World K V)
    (cid : Nat) (cs : CacheState K) (k : K) (rid : Nat)
    (hreach : Reachable w)
    (hcs : Dict.fetch w.caches cid = some cs)
    (hk : Dict.fetch cs.cache k = some rid) :
    refRead w rid ≠ none ∧
    ¬ (Cache.get w cid k = some rid ∧ refRead w rid = none) := by
  have hinv := reachable_inv w hreach
  have hlive := hinv.live cid cs k rid hcs hk
  exact ⟨hlive, fun hc => hlive hc.2⟩

/-- Witness for C9 at a concrete input: the world reached by creating a
cache and inserting key 7. -/
theorem C9_witness :
    refRead (exAddW (Cache.add sampleW0 0 7 99 [sampleFnA]) sampleW0) 0
      ≠ none ∧
    ¬ (Cache.get (exAddW (Cache.add sampleW0 0 7 99 [sampleFnA]) sampleW0)
        0 7 = some 0 ∧
      refRead (exAddW (Cache.add sampleW0 0 7 99 [sampleFnA]) sampleW0) 0
        = none) :=
  C9_present_keys_live
    (exAddW (Cache.add sampleW0 0 7 99 [sampleFnA]) sampleW0)
    0 ⟨[(7, 0)], [(1, [(7, [1])])], [1]⟩ 7 0
    (Reachable.addOk sampleW0 0 7 99 [sampleFnA]
      (exAddW (Cache.add sampleW0 0 7 99 [sampleFnA]) sampleW0) 0
      (Reachable.newCache (World.empty Nat Nat) 0 Reachable.init rfl)
      rfl)
    rfl rfl

end TlmAdjoint
